import Mathlib

/-!
# PCA9685 driver (go-pca9685, package `v1`): shallow embedding and verification

The Go driver in `v1/pca9685.go` is embedded as pure Lean functions.

* Machine integers (`byte`, `uint16`, `uint`) are natural numbers; every place
  where Go arithmetic wraps is written with an explicit `% 2 ^ w`.
* The bus (`io.ReadWriter`) is an explicit world state that is threaded through
  every method: it records the operations issued so far and answers each operation
  from a fixed script.
* `float64` values are modelled exactly: a finite double is an integer number of
  units of `2 ^ (-1074)` and every arithmetic operation rounds to nearest, ties to
  even, onto the 53-bit grid.
-/

namespace pca9685

/-! ## Constants (`const ( ... )` block of `pca9685.go`) -/

/-- Device clock speed, 25 MHz. -/
def ClockDeviceHZ : Nat := 25000000

/-- Number of fractions of one period (12-bit resolution). -/
def ClockPeriodsFractionsCount : Nat := 4096

/-- Largest fraction index, `0xfff`. -/
def ClockPeriodsFractionsMaxValue : Nat := 0xfff

/-- Smallest prescale value allowed by the device. -/
def PrescaleMinValue : Nat := 3

/-- Largest prescale value allowed by the device. -/
def PrescaleMaxValue : Nat := 255

/-- Address of the MODE1 register. -/
def AddressMode1 : Nat := 0x00

/-- Address of the first channel's "on low" register. -/
def AddressLed1OnLow : Nat := 0x06

/-- Address of the "on low" register of the all-channels block. -/
def AddressLedAllOnLow : Nat := 0xFA

/-- Address of the PRE_SCALE register. -/
def AddressPrescale : Nat := 0xFE

def bitMode1Reset : Nat := 0b10000000

def bitMode1AutoIncrement : Nat := 0b00100000

def bitMode1Sleep : Nat := 0b00010000

def bitMode1RespondToAllCall : Nat := 0b00000001

def fullOnOffValue : Nat := 0x1000

def channelByteResolution : Nat := 0x04

/-- The value of `time.Millisecond` (a `time.Duration`, counted in nanoseconds). -/
def timeMillisecond : Nat := 1000000

/-! ## The bus -/

/-- One call on the `io.ReadWriter`: `Write(buf)` with the bytes passed, or `Read(buf)` with
the length of the buffer passed. -/
inductive BusOp where
  | write (buf : List Nat)
  | read (len : Nat)
  deriving DecidableEq, Repr

/-- State of the bus. `log` holds the calls issued so far, oldest first. The call number `i`
(counted from 0 over the whole life of the bus) returns a non-nil error exactly when `fails i`
holds; a `Read` that is call number `i` stores `readByte i % 256` in the first byte of the
caller's buffer. -/
structure Bus where
  log : List BusOp
  fails : Nat → Bool
  readByte : Nat → Nat

/-- The call `bus.Write(buf)`: the new bus state and whether the returned error is non-nil. -/
def Bus.Write (b : Bus) (buf : List Nat) : Bus × Bool :=
  ({ b with log := b.log ++ [BusOp.write buf] }, b.fails b.log.length)

/-- The call `bus.Read(buf)` with a buffer of length `len` (initially zero): the new bus state,
the first byte of the buffer after the call, and whether the returned error is non-nil. -/
def Bus.Read (b : Bus) (len : Nat) : Bus × Nat × Bool :=
  ({ b with log := b.log ++ [BusOp.read len] }, b.readByte b.log.length % 256,
    b.fails b.log.length)

/-! ## Results -/

/-- The errors the driver returns, by kind (the message text is not modelled). -/
inductive Err where
  /-- `device cannot oscillate on %d Hz` -/
  | unsupportedFrequency
  /-- `on value cannot be greater then 4095` -/
  | onOutOfRange
  /-- `off value cannot be greater then 4095` -/
  | offOutOfRange
  /-- `on period duration can not be longer then %d ms` -/
  | durationTooLong
  /-- A wrapped bus error; the text names the step that failed. -/
  | transport (step : String)
  deriving DecidableEq, Repr

/-- How a method call ends: it returns `nil`, returns an error, or panics at run time
(slice bounds or index out of range). -/
inductive Outcome where
  | ok
  | error (e : Err)
  | panic
  deriving DecidableEq, Repr

/-! ## float64

A finite `float64` is an integer multiple of `2 ^ (-1074)`; `F64.fin k` is the double of value
`k * 2 ^ (-1074)`. Doubles below `2 ^ 53` units (the subnormals and the first binade) are spaced
one unit apart; above, a double has a 53-bit significand. The sign of zero is not represented:
the only zero divisors this program can produce come from unsigned integers and are `+0`. -/

/-- The quotient `n / d` rounded to the nearest natural number, ties to the even one. -/
def rheDiv (n d : Nat) : Nat :=
  if 2 * (n % d) < d then n / d
  else if d < 2 * (n % d) then n / d + 1
  else if n / d % 2 = 0 then n / d
  else n / d + 1

/-- Binary search, `k` steps left: the largest `s` in `[acc, acc + 2 ^ k)` with
`2 ^ 53 ≤ q / 2 ^ s`, given that `acc` is such an `s` and `acc + 2 ^ k` is not. -/
def normShift (q : Nat) : Nat → Nat → Nat
  | 0, acc => acc
  | k + 1, acc =>
    if 2 ^ 53 ≤ q / 2 ^ (acc + 2 ^ k) then normShift q k (acc + 2 ^ k) else normShift q k acc

/-- The number of low bits a quotient `q ≥ 2 ^ 53` loses when it is cut to a 53-bit
significand (`q < 2 ^ 4149`). -/
def dropBits (q : Nat) : Nat := normShift q 12 0 + 1

/-- The double nearest to the non-negative rational `n / d` (both counted in units), ties to
even, before the overflow check. -/
def roundUnits (n d : Nat) : Nat :=
  if n / d < 2 ^ 53 then rheDiv n d
  else rheDiv n (d * 2 ^ dropBits (n / d)) * 2 ^ dropBits (n / d)

/-- A `float64` value. -/
inductive F64 where
  | fin (k : Int)
  | inf (neg : Bool)
  | nan
  deriving DecidableEq, Repr

/-- The number of units in `1.0`. -/
@[irreducible]
def F64.one : Nat := 2 ^ 1074

/-- The number of units in `2 ^ 1024`, the magnitude from which a result overflows. -/
@[irreducible]
def F64.overflowUnits : Nat := 2 ^ 2098

/-- The result of an operation whose exact value has the sign `neg` and the magnitude `n / d`
units: rounded to nearest even, and infinite when the rounded value is `2 ^ 1024` or more. -/
def F64.round (neg : Bool) (n d : Nat) : F64 :=
  if F64.overflowUnits ≤ roundUnits n d then F64.inf neg
  else F64.fin (if neg then -(roundUnits n d : Int) else (roundUnits n d : Int))

/-- Conversion of an unsigned integer to `float64`. -/
def F64.ofNat (n : Nat) : F64 := F64.round false (n * F64.one) 1

/-- Operator `/` on `float64`. -/
def F64.div : F64 → F64 → F64
  | F64.fin a, F64.fin b =>
    if b = 0 then (if a = 0 then F64.nan else F64.inf (decide (a < 0)))
    else F64.round (decide (a < 0) != decide (b < 0)) (a.natAbs * F64.one) b.natAbs
  | F64.fin _, F64.inf _ => F64.fin 0
  | F64.inf s, F64.fin b => F64.inf (s != decide (b < 0))
  | F64.inf _, F64.inf _ => F64.nan
  | F64.fin _, F64.nan => F64.nan
  | F64.inf _, F64.nan => F64.nan
  | F64.nan, _ => F64.nan

/-- Operator `-` on `float64`. -/
def F64.sub : F64 → F64 → F64
  | F64.fin a, F64.fin b => F64.round (decide (a - b < 0)) (a - b).natAbs 1
  | F64.fin _, F64.inf s => F64.inf (!s)
  | F64.inf s, F64.fin _ => F64.inf s
  | F64.inf s, F64.inf t => if s = t then F64.nan else F64.inf s
  | F64.fin _, F64.nan => F64.nan
  | F64.inf _, F64.nan => F64.nan
  | F64.nan, _ => F64.nan

/-- Function `math.RoundToEven`: the nearest integer, ties to even. -/
def F64.RoundToEven : F64 → F64
  | F64.fin a =>
    if a < 0 then F64.fin (-((rheDiv a.natAbs F64.one * F64.one : Nat) : Int))
    else F64.fin ((rheDiv a.natAbs F64.one * F64.one : Nat) : Int)
  | F64.inf s => F64.inf s
  | F64.nan => F64.nan

/-- Operator `<` on `float64` (false when an operand is NaN); `x > y` is `y < x`. -/
def F64.lt : F64 → F64 → Bool
  | F64.fin a, F64.fin b => decide (a < b)
  | F64.fin _, F64.inf s => !s
  | F64.inf s, F64.fin _ => s
  | F64.inf s, F64.inf t => s && !t
  | F64.fin _, F64.nan => false
  | F64.inf _, F64.nan => false
  | F64.nan, _ => false

/-- Conversion of a `float64` to an unsigned integer type of `bits` bits: the fraction is
discarded; when the truncated value does not fit the type, the language leaves the result to
the implementation, here `impl`. -/
def F64.toUint (bits : Nat) (impl : F64 → Nat) : F64 → Nat
  | F64.fin a =>
    if 0 ≤ a.tdiv F64.one ∧ a.tdiv F64.one < 2 ^ bits then (a.tdiv F64.one).toNat
    else impl (F64.fin a) % 2 ^ bits
  | F64.inf s => impl (F64.inf s) % 2 ^ bits
  | F64.nan => impl F64.nan % 2 ^ bits

/-- What the language leaves to the implementation: the size of `uint` (32 or 64 bits) and the
result of converting a `float64` to an integer type that cannot represent it. -/
structure Platform where
  uint64 : Bool
  floatToInt : F64 → Nat

/-- The number of bits of `uint`. -/
def Platform.uintBits (pf : Platform) : Nat := if pf.uint64 then 64 else 32

/-! ## The device -/

/-- The struct `PCA9685`. Its `bus` field is a reference to the shared bus; the bus state is
passed to and returned from each method instead. `frequency` is a `uint16`. -/
structure PCA9685 where
  frequency : Nat
  deriving DecidableEq, Repr

/-- The `float64` variable `prescaler` of `SetFrequency` after `math.RoundToEven`; the product
`ClockPeriodsFractionsCount*clockSpeed` is computed in `uint`, of `bits` bits. -/
def prescalerOf (bits clockSpeed : Nat) : F64 :=
  F64.RoundToEven
    (F64.sub
      (F64.div (F64.ofNat ClockDeviceHZ)
        (F64.ofNat ((ClockPeriodsFractionsCount * clockSpeed) % 2 ^ bits)))
      (F64.ofNat 1))

/-- The prescaler compliance check of `SetFrequency`: true when the frequency is refused. -/
def prescalerRejected (bits clockSpeed : Nat) : Bool :=
  (prescalerOf bits clockSpeed).lt (F64.ofNat PrescaleMinValue)
    || (F64.ofNat PrescaleMaxValue).lt (prescalerOf bits clockSpeed)

/-- Method `Reset`. -/
def PCA9685.Reset (p : PCA9685) (bus : Bus) : (PCA9685 × Bus) × Outcome :=
  let w := bus.Write [AddressMode1, 0x0]
  if w.2 then ((p, w.1), Outcome.error (Err.transport "failed to reset device"))
  else ((p, w.1), Outcome.ok)

/-- Constructor `NewPCA9685`. -/
def NewPCA9685 (bus : Bus) : (PCA9685 × Bus) × Outcome :=
  PCA9685.Reset { frequency := 0 } bus

/-- Method `SetFrequency(clockSpeed uint) error`. The call `time.Sleep(2000)` between the fourth
and the fifth write has no effect on the state and is left out. -/
def PCA9685.SetFrequency (pf : Platform) (p : PCA9685) (bus : Bus) (clockSpeed : Nat) :
    (PCA9685 × Bus) × Outcome :=
  if prescalerRejected pf.uintBits clockSpeed then
    ((p, bus), Outcome.error Err.unsupportedFrequency)
  else
    let value := (prescalerOf pf.uintBits clockSpeed).toUint 8 pf.floatToInt
    let w1 := bus.Write [AddressMode1]
    if w1.2 then ((p, w1.1), Outcome.error (Err.transport "failed to set address for read"))
    else
      let r := w1.1.Read 1
      let mode1 := r.2.1
      if r.2.2 then ((p, r.1), Outcome.error (Err.transport "failed to read MODE1 register"))
      else
        let sleepMode1 := (mode1 &&& 0b01111111) ||| bitMode1Sleep
        let w2 := r.1.Write [AddressMode1, sleepMode1]
        if w2.2 then
          ((p, w2.1), Outcome.error (Err.transport "failed to put device in sleep mode"))
        else
          let w3 := w2.1.Write [AddressPrescale, value]
          if w3.2 then
            ((p, w3.1), Outcome.error (Err.transport "failed to change prescaler value"))
          else
            let w4 := w3.1.Write [AddressMode1, mode1]
            if w4.2 then
              ((p, w4.1), Outcome.error (Err.transport "failed to restore MODE1 register"))
            else
              let resetMode1 :=
                mode1 ||| bitMode1Reset ||| bitMode1AutoIncrement ||| bitMode1RespondToAllCall
              let w5 := w4.1.Write [AddressMode1, resetMode1]
              if w5.2 then
                ((p, w5.1), Outcome.error (Err.transport "failed to put device in restart mode"))
              else (({ p with frequency := clockSpeed % 2 ^ 16 }, w5.1), Outcome.ok)

/-! ## Channels -/

/-- The struct `Channels`. Its `bus` field is a reference to the shared bus; the bus state is
passed to and returned from each method instead. `addresLowOn` is a `byte`, `frequency` and
`channelsCount` are `uint16`. -/
structure Channels where
  addresLowOn : Nat
  frequency : Nat
  channelsCount : Nat
  deriving DecidableEq, Repr

/-- Constructor `NewChannels`. -/
def NewChannels (addresLowOn frequency channelsCount : Nat) : Channels :=
  { addresLowOn := addresLowOn, frequency := frequency, channelsCount := channelsCount }

/-- The statement `binary.LittleEndian.PutUint16(buf[lo:hi], v)`: the slice expression panics
unless `lo ≤ hi ≤ len(buf)`, `PutUint16` panics unless the slice has at least two bytes, and
otherwise `byte(v)` and `byte(v >> 8)` are stored at `lo` and `lo + 1`. `none` is a panic. -/
def putUint16 (buf : List Nat) (lo hi v : Nat) : Option (List Nat) :=
  if lo ≤ hi ∧ hi ≤ buf.length ∧ 2 ≤ hi - lo then
    some ((buf.set lo (v % 256)).set (lo + 1) (v / 256 % 256))
  else none

/-- Body of the loop of `writeOnOffValue` for loop variable `i`; the slice bounds are computed in
`uint16` arithmetic. -/
def writeOnOffBody (onVal offVal i : Nat) (buf : List Nat) : Option (List Nat) :=
  (putUint16 buf ((1 + i * channelByteResolution) % 2 ^ 16)
    ((3 + i * channelByteResolution) % 2 ^ 16) onVal).bind
  fun buf1 => putUint16 buf1 ((3 + i * channelByteResolution) % 2 ^ 16)
    ((5 + i * channelByteResolution) % 2 ^ 16) offVal

/-- The loop `for i := uint16(0); i < c.channelsCount; i++` of `writeOnOffValue`, started at
loop variable `i` with `steps` iterations left (`steps = channelsCount - i`). -/
def writeOnOffLoop (onVal offVal : Nat) : Nat → Nat → List Nat → Option (List Nat)
  | 0, _, buf => some buf
  | steps + 1, i, buf => (writeOnOffBody onVal offVal i buf).bind (writeOnOffLoop onVal offVal steps (i + 1))

/-- The buffer `writeOnOffValue` builds before it calls the bus, `none` when building it panics.
`make` allocates `channelsCount*channelByteResolution+1` zero bytes, the length being computed
in `uint16`; `buf[0] = c.addresLowOn` panics on an empty buffer. -/
def onOffBuffer (c : Channels) (onVal offVal : Nat) : Option (List Nat) :=
  let buf := List.replicate ((c.channelsCount * channelByteResolution + 1) % 2 ^ 16) 0
  if 0 < buf.length then
    writeOnOffLoop onVal offVal c.channelsCount 0 (buf.set 0 c.addresLowOn)
  else none

/-- Method `(c *Channels) writeOnOffValue(on, off uint16) error`. -/
def Channels.writeOnOffValue (c : Channels) (bus : Bus) (onVal offVal : Nat) : Bus × Outcome :=
  match onOffBuffer c onVal offVal with
  | none => (bus, Outcome.panic)
  | some buf =>
    let r := bus.Write buf
    if r.2 then (r.1, Outcome.error (Err.transport "failed to write new state"))
    else (r.1, Outcome.ok)

/-- Method `(c *Channels) SetPeriod(on, off uint16) error`. -/
def Channels.SetPeriod (c : Channels) (bus : Bus) (onVal offVal : Nat) : Bus × Outcome :=
  if onVal > ClockPeriodsFractionsMaxValue then (bus, Outcome.error Err.onOutOfRange)
  else if offVal > ClockPeriodsFractionsMaxValue then (bus, Outcome.error Err.offOutOfRange)
  else c.writeOnOffValue bus onVal offVal

/-- Method `(c *Channels) FullOn() error`. -/
def Channels.FullOn (c : Channels) (bus : Bus) : Bus × Outcome :=
  c.writeOnOffValue bus fullOnOffValue 0

/-- Method `(c *Channels) FullOff() error`. -/
def Channels.FullOff (c : Channels) (bus : Bus) : Bus × Outcome :=
  c.writeOnOffValue bus 0 fullOnOffValue

/-- The `float64` variable `periodDuration` of the duration setters. -/
def periodDurationOf (c : Channels) : F64 :=
  F64.div (F64.ofNat timeMillisecond) (F64.ofNat c.frequency)

/-- The fraction number the duration setters compute for `us` microseconds: the value of
`uint16(math.RoundToEven(float64(us) / periodFractionDuration))`. -/
def fractionNumber (pf : Platform) (c : Channels) (us : Nat) : Nat :=
  (F64.RoundToEven
    (F64.div (F64.ofNat us)
      (F64.div (periodDurationOf c) (F64.ofNat ClockPeriodsFractionsMaxValue)))).toUint 16
    pf.floatToInt

/-- Method `SetOnPeriodDurationWithShift(onShiftMicroseconds, microseconds uint16) error`; the
sum `onShiftMicroseconds+microseconds` is computed in `uint16`. -/
def Channels.SetOnPeriodDurationWithShift (pf : Platform) (c : Channels) (bus : Bus)
    (onShiftMicroseconds microseconds : Nat) : Bus × Outcome :=
  if (periodDurationOf c).lt (F64.ofNat ((onShiftMicroseconds + microseconds) % 2 ^ 16)) then
    (bus, Outcome.error Err.durationTooLong)
  else
    c.SetPeriod bus (fractionNumber pf c onShiftMicroseconds)
      (fractionNumber pf c ((onShiftMicroseconds + microseconds) % 2 ^ 16))

/-- Method `SetOnPeriodDuration(microseconds uint16) error`. -/
def Channels.SetOnPeriodDuration (pf : Platform) (c : Channels) (bus : Bus)
    (microseconds : Nat) : Bus × Outcome :=
  if (periodDurationOf c).lt (F64.ofNat microseconds) then
    (bus, Outcome.error Err.durationTooLong)
  else c.SetOnPeriodDurationWithShift pf bus 0 microseconds

/-! ## Channel groups of a device -/

/-- Method `GetChannel(channelNumber byte)`; the address `channelNumber*4+AddressLed1OnLow` is
computed in `byte`. -/
def PCA9685.GetChannel (p : PCA9685) (channelNumber : Nat) : Channels :=
  NewChannels ((channelNumber * 4 + AddressLed1OnLow) % 2 ^ 8) p.frequency 1

/-- Method `GetChannels(channelNumber byte, channelsCount uint16)`; the address is computed in
`byte`. -/
def PCA9685.GetChannels (p : PCA9685) (channelNumber channelsCount : Nat) : Channels :=
  NewChannels ((channelNumber * 4 + AddressLed1OnLow) % 2 ^ 8) p.frequency channelsCount

/-- Method `GetAllChannels()`. -/
def PCA9685.GetAllChannels (p : PCA9685) : Channels :=
  NewChannels AddressLedAllOnLow p.frequency 1

/-- Method `TurnOff()`. -/
def PCA9685.TurnOff (p : PCA9685) (bus : Bus) : (PCA9685 × Bus) × Outcome :=
  ((p, (p.GetAllChannels.FullOff bus).1), (p.GetAllChannels.FullOff bus).2)

/-- The four register bytes of one channel: little-endian `on`, then little-endian `off`. -/
def channelBlock (onVal offVal : Nat) : List Nat :=
  [onVal % 256, onVal / 256 % 256, offVal % 256, offVal / 256 % 256]

/-- The address byte followed by `n` copies of the channel block. -/
def expectedBuffer (a n onVal offVal : Nat) : List Nat :=
  a :: (List.replicate n (channelBlock onVal offVal)).flatten

/-! ## The specification's formulas -/

/-- The prescaler as the specification words it,
`round_half_even(25_000_000 / (4096 × hz)) − 1`, over the exact rational (for `hz = 0`, where
the quotient is undefined, the value is `0`, outside the valid range). -/
def specPrescaler (hz : Nat) : Int := (rheDiv 25000000 (4096 * hz) : Int) - 1

/-- The specification's `round_half_even(us / fractionDuration)` with
`fractionDuration = (1_000_000 / f) / 4095`, over the exact rational `us * 4095 * f / 10^6`. -/
def specFraction (f us : Nat) : Nat := rheDiv (us * 4095 * f) 1000000

/-- The bus calls of a complete `SetFrequency`, in order, for the MODE1 byte `m` read back and
the prescaler byte `p`: select MODE1, read it, write it with restart cleared and sleep set,
write the prescaler, write MODE1 back, write it with restart, auto-increment and all-call
set. -/
def frequencySequence (m p : Nat) : List BusOp :=
  [BusOp.write [0x00], BusOp.read 1, BusOp.write [0x00, (m &&& 0x7F) ||| 0x10],
    BusOp.write [0xFE, p], BusOp.write [0x00, m], BusOp.write [0x00, m ||| 0xA1]]

/-- The `float64` quotient `float64(us) / periodFractionDuration` of the duration setters at a
frequency `f ≥ 1`, in units: three roundings, of `10^6 / f`, of that over `4095`, and of `us`
over the result. -/
def fractionUnits (f us : Nat) : Nat :=
  roundUnits (us * F64.one * F64.one) (roundUnits (roundUnits (1000000 * F64.one) f) 4095)

/-- Whether `p` holds for the `n` numbers from `lo` on. -/
def allFrom (p : Nat → Bool) : Nat → Nat → Bool
  | _, 0 => true
  | lo, n + 1 => p lo && allFrom p (lo + 1) n

/-! ## Buffer construction -/

theorem expectedBuffer_length (a n onVal offVal : Nat) :
    (expectedBuffer a n onVal offVal).length = 1 + 4 * n := by
  simp [expectedBuffer, channelBlock, List.length_flatten]
  omega

theorem putUint16_append (pre rest : List Nat) (x0 x1 lo hi v : Nat)
    (hlo : lo = pre.length) (hhi : hi = lo + 2) :
    putUint16 (pre ++ x0 :: x1 :: rest) lo hi v
      = some (pre ++ v % 256 :: v / 256 % 256 :: rest) := by
  subst hlo hhi
  have hc : pre.length ≤ pre.length + 2
      ∧ pre.length + 2 ≤ (pre ++ x0 :: x1 :: rest).length
      ∧ 2 ≤ pre.length + 2 - pre.length := by
    simp only [List.length_append, List.length_cons]
    omega
  rw [putUint16, if_pos hc]
  rw [List.set_append_right _ _ (Nat.le_refl _), Nat.sub_self, List.set_cons_zero,
    List.set_append_right _ _ (Nat.le_succ _)]
  simp

theorem writeOnOffBody_append (onVal offVal i : Nat) (pre rest : List Nat) (x0 x1 x2 x3 : Nat)
    (hpre : pre.length = 1 + 4 * i) (hi : 4 * i + 5 < 2 ^ 16) :
    writeOnOffBody onVal offVal i (pre ++ x0 :: x1 :: x2 :: x3 :: rest)
      = some (pre ++ channelBlock onVal offVal ++ rest) := by
  have h1 : (1 + i * channelByteResolution) % 2 ^ 16 = pre.length := by
    rw [Nat.mod_eq_of_lt] <;> simp only [channelByteResolution] <;> omega
  have h3 : (3 + i * channelByteResolution) % 2 ^ 16 = pre.length + 2 := by
    rw [Nat.mod_eq_of_lt] <;> simp only [channelByteResolution] <;> omega
  have h5 : (5 + i * channelByteResolution) % 2 ^ 16 = pre.length + 2 + 2 := by
    rw [Nat.mod_eq_of_lt] <;> simp only [channelByteResolution] <;> omega
  rw [writeOnOffBody, h1, h3, h5, putUint16_append pre _ x0 x1 _ _ onVal rfl rfl]
  simp only [Option.some_bind]
  have hsplit : pre ++ onVal % 256 :: onVal / 256 % 256 :: x2 :: x3 :: rest
      = (pre ++ [onVal % 256, onVal / 256 % 256]) ++ x2 :: x3 :: rest := by simp
  rw [hsplit, putUint16_append _ rest x2 x3 _ _ offVal (by simp) rfl]
  simp [channelBlock]

theorem writeOnOffLoop_zeros (onVal offVal : Nat) :
    ∀ (steps i : Nat) (pre : List Nat), pre.length = 1 + 4 * i →
      4 * (i + steps) + 1 < 2 ^ 16 →
      writeOnOffLoop onVal offVal steps i (pre ++ List.replicate (4 * steps) 0)
        = some (pre ++ (List.replicate steps (channelBlock onVal offVal)).flatten) := by
  intro steps
  induction steps with
  | zero => intro i pre _ _; simp [writeOnOffLoop]
  | succ s ih =>
    intro i pre hpre hb
    have hz : List.replicate (4 * (s + 1)) 0
        = (0 : Nat) :: 0 :: 0 :: 0 :: List.replicate (4 * s) 0 := by
      rw [show 4 * (s + 1) = 4 * s + 1 + 1 + 1 + 1 by ring]
      simp [List.replicate_succ]
    rw [writeOnOffLoop, hz, writeOnOffBody_append onVal offVal i pre _ 0 0 0 0 hpre (by omega)]
    simp only [Option.some_bind]
    rw [ih (i + 1) (pre ++ channelBlock onVal offVal)
      (by simp [channelBlock, hpre]; omega) (by omega)]
    simp [List.replicate_succ]

/-- For a group of at most 16383 channels, building the buffer does not panic and gives the
address byte followed by one block per channel. -/
theorem onOffBuffer_eq (c : Channels) (onVal offVal : Nat) (hc : c.channelsCount ≤ 16383) :
    onOffBuffer c onVal offVal
      = some (expectedBuffer c.addresLowOn c.channelsCount onVal offVal) := by
  have hlen : (c.channelsCount * channelByteResolution + 1) % 2 ^ 16
      = (4 * c.channelsCount) + 1 := by
    rw [Nat.mod_eq_of_lt] <;> simp only [channelByteResolution] <;> omega
  have hset : (List.replicate (4 * c.channelsCount + 1) 0).set 0 c.addresLowOn
      = [c.addresLowOn] ++ List.replicate (4 * c.channelsCount) 0 := by
    simp [List.replicate_succ]
  simp only [onOffBuffer, hlen, List.length_replicate, Nat.succ_pos, if_true, hset]
  rw [writeOnOffLoop_zeros onVal offVal c.channelsCount 0 [c.addresLowOn] (by simp) (by omega)]
  simp [expectedBuffer]

/-! ## SetPeriod -/

theorem flatten_replicate_drop_take (blk : List Nat) (hlen : blk.length = 4) :
    ∀ (i n : Nat), i < n → (((List.replicate n blk).flatten).drop (4 * i)).take 4 = blk := by
  intro i
  induction i with
  | zero =>
    intro n hn
    obtain ⟨m, rfl⟩ : ∃ m, n = m + 1 := ⟨n - 1, by omega⟩
    simp [List.replicate_succ, List.take_append_eq_append_take, hlen]
  | succ k ih =>
    intro n hn
    obtain ⟨m, rfl⟩ : ∃ m, n = m + 1 := ⟨n - 1, by omega⟩
    rw [List.replicate_succ, List.flatten_cons, show 4 * (k + 1) = blk.length + 4 * k by omega,
      ← List.drop_drop, List.drop_left]
    exact ih m (by omega)

theorem SetPeriod_in_range (c : Channels) (bus : Bus) (onVal offVal : Nat)
    (hon : onVal ≤ 4095) (hoff : offVal ≤ 4095) :
    c.SetPeriod bus onVal offVal = c.writeOnOffValue bus onVal offVal := by
  have h1 : ¬ onVal > ClockPeriodsFractionsMaxValue := by
    simp only [ClockPeriodsFractionsMaxValue]; omega
  have h2 : ¬ offVal > ClockPeriodsFractionsMaxValue := by
    simp only [ClockPeriodsFractionsMaxValue]; omega
  simp only [Channels.SetPeriod, if_neg h1, if_neg h2]

/-- C1: on a group of `n` channels (`1 ≤ n ≤ 16`) at base address `a`, with `on` and `off` at
most 4095 and a bus whose next call succeeds, `SetPeriod` returns `nil` and adds exactly one
call to the bus, a write; the written buffer has length `1 + 4 * n`, starts with `a`, and for
every channel `i < n` the four bytes from offset `1 + 4 * i` are
`on mod 256, on div 256, off mod 256, off div 256`. -/
theorem C1_SetPeriod_single_write (c : Channels) (bus : Bus) (onVal offVal : Nat)
    (hn1 : 1 ≤ c.channelsCount) (hn : c.channelsCount ≤ 16)
    (hon : onVal ≤ 4095) (hoff : offVal ≤ 4095)
    (hok : bus.fails bus.log.length = false) :
    ∃ buf : List Nat,
      (c.SetPeriod bus onVal offVal).2 = Outcome.ok ∧
      (c.SetPeriod bus onVal offVal).1.log = bus.log ++ [BusOp.write buf] ∧
      buf.length = 1 + 4 * c.channelsCount ∧
      buf.head? = some c.addresLowOn ∧
      ∀ i < c.channelsCount,
        (buf.drop (1 + 4 * i)).take 4
          = [onVal % 256, onVal / 256, offVal % 256, offVal / 256] := by
  refine ⟨expectedBuffer c.addresLowOn c.channelsCount onVal offVal, ?_, ?_, ?_, ?_, ?_⟩
  · rw [SetPeriod_in_range c bus onVal offVal hon hoff, Channels.writeOnOffValue,
      onOffBuffer_eq c onVal offVal (by omega)]
    simp [Bus.Write, hok]
  · rw [SetPeriod_in_range c bus onVal offVal hon hoff, Channels.writeOnOffValue,
      onOffBuffer_eq c onVal offVal (by omega)]
    simp [Bus.Write, hok]
  · exact expectedBuffer_length _ _ _ _
  · simp [expectedBuffer]
  · intro i hi
    have hb : channelBlock onVal offVal
        = [onVal % 256, onVal / 256, offVal % 256, offVal / 256] := by
      simp only [channelBlock]
      rw [Nat.mod_eq_of_lt (show onVal / 256 < 256 by omega),
        Nat.mod_eq_of_lt (show offVal / 256 < 256 by omega)]
    rw [expectedBuffer, show 1 + 4 * i = (4 * i) + 1 by omega, List.drop_succ_cons,
      flatten_replicate_drop_take _ (by simp [channelBlock]) i _ hi, hb]

/-- Witness of C1: channels 0 and 1 (base address 6), `SetPeriod(0, 4095)`. -/
theorem C1_SetPeriod_single_write_witness :
    ∃ buf : List Nat,
      ((NewChannels 6 1526 2).SetPeriod ⟨[], fun _ => false, fun _ => 0⟩ 0 4095).2 = Outcome.ok ∧
      ((NewChannels 6 1526 2).SetPeriod ⟨[], fun _ => false, fun _ => 0⟩ 0 4095).1.log
        = [] ++ [BusOp.write buf] ∧
      buf.length = 1 + 4 * 2 ∧
      buf.head? = some 6 ∧
      ∀ i < 2, (buf.drop (1 + 4 * i)).take 4 = [0 % 256, 0 / 256, 4095 % 256, 4095 / 256] :=
  C1_SetPeriod_single_write (NewChannels 6 1526 2) ⟨[], fun _ => false, fun _ => 0⟩ 0 4095
    (by decide) (by decide) (by decide) (by decide) rfl

/-- The two guards of `SetPeriod`: it returns a range error and leaves the bus untouched
whenever `on > 4095` or `off > 4095`; when both are at most 4095 it never returns a range error,
it returns an error exactly when it issued its single bus write and that write failed, and on a
group of at most 16383 channels that write is issued. -/
theorem SetPeriod_range_check (c : Channels) (bus : Bus) (onVal offVal : Nat) :
    ((4095 < onVal ∨ 4095 < offVal) →
      (c.SetPeriod bus onVal offVal).1 = bus ∧
      ((c.SetPeriod bus onVal offVal).2 = Outcome.error Err.onOutOfRange
        ∨ (c.SetPeriod bus onVal offVal).2 = Outcome.error Err.offOutOfRange)) ∧
    ((onVal ≤ 4095 ∧ offVal ≤ 4095) →
      (c.SetPeriod bus onVal offVal).2 ≠ Outcome.error Err.onOutOfRange ∧
      (c.SetPeriod bus onVal offVal).2 ≠ Outcome.error Err.offOutOfRange ∧
      ((∃ e, (c.SetPeriod bus onVal offVal).2 = Outcome.error e) ↔
        ((∃ buf, (c.SetPeriod bus onVal offVal).1.log = bus.log ++ [BusOp.write buf])
          ∧ bus.fails bus.log.length = true)) ∧
      (c.channelsCount ≤ 16383 →
        (c.SetPeriod bus onVal offVal).1.log
          = bus.log ++ [BusOp.write (expectedBuffer c.addresLowOn c.channelsCount onVal offVal)]))
    := by
  constructor
  · intro h
    by_cases h1 : onVal > ClockPeriodsFractionsMaxValue
    · simp [Channels.SetPeriod, h1]
    · have h2 : offVal > ClockPeriodsFractionsMaxValue := by
        simp only [ClockPeriodsFractionsMaxValue] at h1 ⊢
        omega
      simp [Channels.SetPeriod, h1, h2]
  · rintro ⟨hon, hoff⟩
    rw [SetPeriod_in_range c bus onVal offVal hon hoff, Channels.writeOnOffValue]
    refine ⟨?_, ?_, ?_, ?_⟩
    · cases onOffBuffer c onVal offVal <;> cases hf : bus.fails bus.log.length <;>
        simp [Bus.Write, hf]
    · cases onOffBuffer c onVal offVal <;> cases hf : bus.fails bus.log.length <;>
        simp [Bus.Write, hf]
    · cases onOffBuffer c onVal offVal <;> cases hf : bus.fails bus.log.length <;>
        simp [Bus.Write, hf]
    · intro hc
      rw [onOffBuffer_eq c onVal offVal hc]
      cases hf : bus.fails bus.log.length <;> simp [Bus.Write, hf]

/-! ## Rounding to nearest, ties to even -/

theorem rheDiv_ge_div (n d : Nat) : n / d ≤ rheDiv n d := by
  unfold rheDiv
  split_ifs <;> omega

theorem rheDiv_le_div_succ (n d : Nat) : rheDiv n d ≤ n / d + 1 := by
  unfold rheDiv
  split_ifs <;> omega

theorem rheDiv_mul_right (n d c : Nat) (hc : 0 < c) : rheDiv (n * c) (d * c) = rheDiv n d := by
  unfold rheDiv
  rw [Nat.mul_div_mul_right n d hc, Nat.mul_mod_mul_right]
  have h1 : 2 * (n % d * c) < d * c ↔ 2 * (n % d) < d := by
    rw [← Nat.mul_assoc]
    exact Nat.mul_lt_mul_right hc
  have h2 : d * c < 2 * (n % d * c) ↔ d < 2 * (n % d) := by
    rw [← Nat.mul_assoc]
    exact Nat.mul_lt_mul_right hc
  simp only [h1, h2]

theorem rheDiv_mono (n1 n2 d : Nat) (h : n1 ≤ n2) :
    rheDiv n1 d ≤ rheDiv n2 d := by
  have hq : n1 / d ≤ n2 / d := Nat.div_le_div_right h
  rcases Nat.lt_or_eq_of_le hq with hlt | heq
  · calc rheDiv n1 d ≤ n1 / d + 1 := rheDiv_le_div_succ n1 d
      _ ≤ n2 / d := hlt
      _ ≤ rheDiv n2 d := rheDiv_ge_div n2 d
  · have e1 := Nat.div_add_mod n1 d
    have e2 := Nat.div_add_mod n2 d
    rw [heq] at e1
    unfold rheDiv
    rw [heq]
    split_ifs <;> omega

theorem rheDiv_mul_self (k d : Nat) (hd : 0 < d) : rheDiv (k * d) d = k := by
  unfold rheDiv
  rw [Nat.mul_mod_left, Nat.mul_div_cancel k hd]
  simp [hd]

/-- The rounded quotient is within half of the exact one. -/
theorem rheDiv_near (n d : Nat) (hd : 0 < d) :
    2 * (rheDiv n d * d) ≤ 2 * n + d ∧ 2 * n ≤ 2 * (rheDiv n d * d) + d := by
  have e := Nat.div_add_mod n d
  have hr := Nat.mod_lt n hd
  have hm : (n / d + 1) * d = d * (n / d) + d := by ring
  have hm0 : n / d * d = d * (n / d) := by ring
  unfold rheDiv
  split_ifs <;> simp only [hm, hm0] <;> omega

theorem normShift_spec (q : Nat) :
    ∀ (k acc : Nat), 2 ^ 53 ≤ q / 2 ^ acc → q / 2 ^ (acc + 2 ^ k) < 2 ^ 53 →
      2 ^ 53 ≤ q / 2 ^ normShift q k acc ∧ q / 2 ^ (normShift q k acc + 1) < 2 ^ 53 := by
  intro k
  induction k with
  | zero =>
    intro acc h1 h2
    exact ⟨h1, by simpa [normShift] using h2⟩
  | succ j ih =>
    intro acc h1 h2
    rw [normShift]
    split_ifs with hc
    · refine ih (acc + 2 ^ j) hc ?_
      rw [show acc + 2 ^ j + 2 ^ j = acc + 2 ^ (j + 1) by rw [pow_succ]; omega]
      exact h2
    · exact ih acc h1 (by omega)

/-- A quotient of at least 54 bits, cut by `dropBits`, has exactly 53 bits. -/
theorem dropBits_spec (q : Nat) (h1 : 2 ^ 53 ≤ q) (h2 : q < 2 ^ 4149) :
    1 ≤ dropBits q ∧ 2 ^ 52 ≤ q / 2 ^ dropBits q ∧ q / 2 ^ dropBits q < 2 ^ 53 := by
  have hs := normShift_spec q 12 0 (by simpa using h1)
    (by
      rw [Nat.div_lt_iff_lt_mul (by positivity)]
      calc q < 2 ^ 4149 := h2
        _ = 2 ^ 53 * 2 ^ (0 + 2 ^ 12) := by rw [← pow_add]; norm_num)
  refine ⟨by simp [dropBits], ?_, hs.2⟩
  have : q / 2 ^ dropBits q = q / 2 ^ normShift q 12 0 / 2 := by
    rw [dropBits, pow_succ, Nat.div_div_eq_div_mul]
  rw [this]
  omega

theorem dropBits_mono (q1 q2 : Nat) (h1 : 2 ^ 53 ≤ q1) (h12 : q1 ≤ q2) (h2 : q2 < 2 ^ 4149) :
    dropBits q1 ≤ dropBits q2 := by
  obtain ⟨_, ha, _⟩ := dropBits_spec q1 h1 (by omega)
  obtain ⟨_, _, hb⟩ := dropBits_spec q2 (by omega) h2
  by_contra hlt
  push_neg at hlt
  have hle : q1 / 2 ^ dropBits q1 ≤ q2 / 2 ^ (dropBits q2 + 1) :=
    calc q1 / 2 ^ dropBits q1 ≤ q2 / 2 ^ dropBits q1 := Nat.div_le_div_right h12
      _ ≤ q2 / 2 ^ (dropBits q2 + 1) :=
        Nat.div_le_div_left (Nat.pow_le_pow_right (by decide) hlt) (by positivity)
  have : q2 / 2 ^ (dropBits q2 + 1) = q2 / 2 ^ dropBits q2 / 2 := by
    rw [pow_succ, Nat.div_div_eq_div_mul]
  omega

theorem roundUnits_small (n d : Nat) (h : n / d < 2 ^ 53) : roundUnits n d = rheDiv n d := by
  rw [roundUnits, if_pos h]

theorem roundUnits_large (n d : Nat) (h : 2 ^ 53 ≤ n / d) (hb : n / d < 2 ^ 4149) :
    roundUnits n d = rheDiv n (d * 2 ^ dropBits (n / d)) * 2 ^ dropBits (n / d)
      ∧ 2 ^ 52 * 2 ^ dropBits (n / d) ≤ roundUnits n d
      ∧ roundUnits n d ≤ 2 ^ 53 * 2 ^ dropBits (n / d) := by
  obtain ⟨_, ha, hc⟩ := dropBits_spec (n / d) h hb
  have he : roundUnits n d = rheDiv n (d * 2 ^ dropBits (n / d)) * 2 ^ dropBits (n / d) := by
    rw [roundUnits, if_neg (by omega)]
  have hq : n / (d * 2 ^ dropBits (n / d)) = n / d / 2 ^ dropBits (n / d) := by
    rw [Nat.div_div_eq_div_mul]
  have h1 := rheDiv_ge_div n (d * 2 ^ dropBits (n / d))
  have h2 := rheDiv_le_div_succ n (d * 2 ^ dropBits (n / d))
  rw [hq] at h1 h2
  refine ⟨he, ?_, ?_⟩
  · rw [he]
    exact Nat.mul_le_mul_right _ (by omega)
  · rw [he]
    exact Nat.mul_le_mul_right _ (by omega)

theorem roundUnits_mul_right (n d c : Nat) (hc : 0 < c) :
    roundUnits (n * c) (d * c) = roundUnits n d := by
  unfold roundUnits
  rw [Nat.mul_div_mul_right n d hc,
    show d * c * 2 ^ dropBits (n / d) = d * 2 ^ dropBits (n / d) * c by ring,
    rheDiv_mul_right n d c hc, rheDiv_mul_right n _ c hc]

/-- Rounding to the nearest double is monotone (same denominator). -/
theorem roundUnits_mono (n1 n2 d : Nat) (h : n1 ≤ n2) (hb : n2 / d < 2 ^ 4149) :
    roundUnits n1 d ≤ roundUnits n2 d := by
  have hq : n1 / d ≤ n2 / d := Nat.div_le_div_right h
  by_cases c2 : n2 / d < 2 ^ 53
  · rw [roundUnits_small n1 d (by omega), roundUnits_small n2 d c2]
    exact rheDiv_mono n1 n2 d h
  · obtain ⟨e2, lo2, _⟩ := roundUnits_large n2 d (by omega) hb
    obtain ⟨hs2, _, _⟩ := dropBits_spec (n2 / d) (by omega) hb
    by_cases c1 : n1 / d < 2 ^ 53
    · rw [roundUnits_small n1 d c1]
      have h1 := rheDiv_le_div_succ n1 d
      have : 2 ^ 52 * 2 ^ 1 ≤ 2 ^ 52 * 2 ^ dropBits (n2 / d) :=
        Nat.mul_le_mul_left _ (Nat.pow_le_pow_right (by decide) hs2)
      omega
    · obtain ⟨e1, _, hi1⟩ := roundUnits_large n1 d (by omega) (by omega)
      have hs := dropBits_mono (n1 / d) (n2 / d) (by omega) hq hb
      rcases Nat.lt_or_eq_of_le hs with hlt | heq
      · calc roundUnits n1 d ≤ 2 ^ 53 * 2 ^ dropBits (n1 / d) := hi1
          _ = 2 ^ 52 * 2 ^ (dropBits (n1 / d) + 1) := by rw [pow_succ]; ring
          _ ≤ 2 ^ 52 * 2 ^ dropBits (n2 / d) :=
            Nat.mul_le_mul_left _ (Nat.pow_le_pow_right (by decide) hlt)
          _ ≤ roundUnits n2 d := lo2
      · rw [e1, e2, heq]
        exact Nat.mul_le_mul_right _ (rheDiv_mono n1 n2 _ h)

/-- Rounding to the nearest double is monotone in the rational it rounds. -/
theorem roundUnits_mono_cross (n1 d1 n2 d2 : Nat) (hd1 : 0 < d1) (hd2 : 0 < d2)
    (h : n1 * d2 ≤ n2 * d1) (hb : n2 / d2 < 2 ^ 4149) :
    roundUnits n1 d1 ≤ roundUnits n2 d2 := by
  rw [← roundUnits_mul_right n1 d1 d2 hd2, ← roundUnits_mul_right n2 d2 d1 hd1,
    Nat.mul_comm d2 d1]
  refine roundUnits_mono _ _ _ h ?_
  rw [Nat.mul_comm d1 d2, Nat.mul_div_mul_right n2 d2 hd1]
  exact hb

/-- A number with at most 53 significant bits is a double: rounding leaves it unchanged. -/
theorem roundUnits_exact (m e : Nat) (hm : m < 2 ^ 53) (hb : m * 2 ^ e < 2 ^ 4149) :
    roundUnits (m * 2 ^ e) 1 = m * 2 ^ e := by
  by_cases c : m * 2 ^ e / 1 < 2 ^ 53
  · rw [roundUnits_small _ _ c]
    simpa using rheDiv_mul_self (m * 2 ^ e) 1 (by decide)
  · rw [Nat.div_one] at c
    obtain ⟨he, -, -⟩ := roundUnits_large (m * 2 ^ e) 1 (by simpa using Nat.le_of_not_lt c)
      (by simpa using hb)
    obtain ⟨-, ha, -⟩ := dropBits_spec (m * 2 ^ e) (Nat.le_of_not_lt c) hb
    rw [he, Nat.div_one, Nat.one_mul]
    have hse : dropBits (m * 2 ^ e) ≤ e := by
      by_contra hlt
      push_neg at hlt
      have : m * 2 ^ e / 2 ^ dropBits (m * 2 ^ e) ≤ m * 2 ^ e / 2 ^ (e + 1) :=
        Nat.div_le_div_left (Nat.pow_le_pow_right (by decide) hlt) (by positivity)
      have h2 : m * 2 ^ e / 2 ^ (e + 1) = m / 2 := by
        rw [pow_succ, ← Nat.div_div_eq_div_mul, Nat.mul_div_cancel _ (by positivity)]
      omega
    generalize dropBits (m * 2 ^ e) = s at hse ⊢
    obtain ⟨t, rfl⟩ : ∃ t, e = t + s := ⟨e - s, by omega⟩
    have hn : m * 2 ^ (t + s) = m * 2 ^ t * 2 ^ s := by
      rw [pow_add]
      ring
    rw [hn, rheDiv_mul_self _ _ (Nat.two_pow_pos s)]

/-! ## float64 operations on the values the driver meets -/

theorem F64.one_pos : 0 < F64.one := by
  unfold F64.one
  exact Nat.two_pow_pos _

theorem F64.round_of_lt (neg : Bool) (n d : Nat) (h : roundUnits n d < F64.overflowUnits) :
    F64.round neg n d
      = F64.fin (if neg then -(roundUnits n d : Int) else (roundUnits n d : Int)) := by
  rw [F64.round, if_neg (Nat.not_le.mpr h)]

theorem mul_two_pow_lt (m a b : Nat) (hm : m < 2 ^ 53) (h : 53 + a ≤ b) :
    m * 2 ^ a < 2 ^ b :=
  calc m * 2 ^ a < 2 ^ 53 * 2 ^ a := Nat.mul_lt_mul_of_pos_right hm (Nat.two_pow_pos _)
    _ = 2 ^ (53 + a) := (pow_add 2 53 a).symm
    _ ≤ 2 ^ b := Nat.pow_le_pow_right (by decide) h

/-- An unsigned integer with at most 53 significant bits converts exactly. -/
theorem F64.ofNat_exact (m e : Nat) (hm : m < 2 ^ 53) (he : e ≤ 970) :
    F64.ofNat (m * 2 ^ e) = F64.fin ((m * 2 ^ e * F64.one : Nat) : Int) := by
  have hone : m * 2 ^ e * F64.one = m * 2 ^ (e + 1074) := by
    rw [F64.one, Nat.mul_assoc, ← pow_add]
  have hr : roundUnits (m * 2 ^ e * F64.one) 1 = m * 2 ^ e * F64.one := by
    rw [hone]
    exact roundUnits_exact m (e + 1074) hm (mul_two_pow_lt m _ _ hm (by omega))
  have hlt : roundUnits (m * 2 ^ e * F64.one) 1 < F64.overflowUnits := by
    rw [hr, hone, F64.overflowUnits]
    exact mul_two_pow_lt m _ _ hm (by omega)
  rw [F64.ofNat, F64.round_of_lt _ _ _ hlt, hr]
  simp

/-- An unsigned integer below `2 ^ 53` converts exactly. -/
theorem F64.ofNat_small (n : Nat) (h : n < 2 ^ 53) :
    F64.ofNat n = F64.fin ((n * F64.one : Nat) : Int) := by
  simpa using F64.ofNat_exact n 0 h (by decide)

/-- The quotient of two non-negative finite doubles, the divisor not zero. -/
theorem F64.div_fin_pos (a b : Nat) (hb : 0 < b) :
    F64.div (F64.fin (a : Int)) (F64.fin (b : Int)) = F64.round false (a * F64.one) b := by
  have hb0 : ¬ ((b : Int) = 0) := by omega
  have ha : decide ((a : Int) < 0) = false := by simp
  have hbn : decide ((b : Int) < 0) = false := by simp
  simp only [F64.div, if_neg hb0, ha, hbn, Int.natAbs_ofNat]
  rfl

/-- The quotient `a / b` of two unsigned integers converted exactly, `b` not zero, seen as the
rounding of the rational `a / b`. -/
theorem F64.div_units (a b : Nat) (hb : 0 < b) :
    F64.div (F64.fin ((a * F64.one : Nat) : Int)) (F64.fin ((b * F64.one : Nat) : Int))
      = F64.round false (a * F64.one) b := by
  rw [F64.div_fin_pos _ _ (Nat.mul_pos hb F64.one_pos), F64.round, F64.round,
    roundUnits_mul_right (a * F64.one) b F64.one F64.one_pos]

theorem allFrom_spec (p : Nat → Bool) :
    ∀ (n lo : Nat), allFrom p lo n = true → ∀ i, lo ≤ i → i < lo + n → p i = true := by
  intro n
  induction n with
  | zero => intro lo _ i h1 h2; omega
  | succ k ih =>
    intro lo h i h1 h2
    rw [allFrom, Bool.and_eq_true] at h
    rcases Nat.eq_or_lt_of_le h1 with heq | hlt
    · rw [← heq]; exact h.1
    · exact ih (lo + 1) h.2 i hlt (by omega)

theorem rheDiv_anti_den (n d1 d2 : Nat) (hd1 : 0 < d1) (h : d1 ≤ d2) :
    rheDiv n d2 ≤ rheDiv n d1 := by
  have hd2 : 0 < d2 := by omega
  rw [← rheDiv_mul_right n d2 d1 hd1, ← rheDiv_mul_right n d1 d2 hd2, Nat.mul_comm d2 d1]
  exact rheDiv_mono _ _ _ (Nat.mul_le_mul_left n h)

/-- The frequencies whose exact prescaler lies in `[3, 255]` are those from 24 to 1743. -/
theorem specPrescaler_range (hz : Nat) :
    (3 ≤ specPrescaler hz ∧ specPrescaler hz ≤ 255) ↔ (24 ≤ hz ∧ hz ≤ 1743) := by
  unfold specPrescaler
  constructor
  · rintro ⟨h1, h2⟩
    by_contra hn
    rcases Nat.eq_zero_or_pos hz with h0 | hpos
    · subst h0
      have : rheDiv 25000000 (4096 * 0) = 1 := by decide
      omega
    · by_cases hlow : hz ≤ 23
      · have := rheDiv_anti_den 25000000 (4096 * hz) (4096 * 23) (by omega) (by omega)
        have e : rheDiv 25000000 (4096 * 23) = 265 := by decide
        omega
      · have := rheDiv_anti_den 25000000 (4096 * 1744) (4096 * hz) (by omega) (by omega)
        have e : rheDiv 25000000 (4096 * 1744) = 3 := by decide
        omega
  · rintro ⟨h1, h2⟩
    have a := rheDiv_anti_den 25000000 (4096 * 24) (4096 * hz) (by omega) (by omega)
    have b := rheDiv_anti_den 25000000 (4096 * hz) (4096 * 1743) (by omega) (by omega)
    have e1 : rheDiv 25000000 (4096 * 24) = 254 := by decide
    have e2 : rheDiv 25000000 (4096 * 1743) = 4 := by decide
    omega

/-- On the frequencies 24 to 1743 the `float64` computation of `SetFrequency` gives exactly the
specification's prescaler (evaluated for a 64-bit `uint`). -/
theorem prescalerOf_supported_table :
    allFrom (fun hz => decide (prescalerOf 64 hz = F64.fin (specPrescaler hz * F64.one)))
      24 1720 = true := by
  decide!

theorem uintBits_cases (pf : Platform) : pf.uintBits = 32 ∨ pf.uintBits = 64 := by
  unfold Platform.uintBits
  cases pf.uint64 <;> simp

/-- A product that fits in 32 bits is the same in both sizes of `uint`. -/
theorem prescalerOf_of_fits (pf : Platform) (hz : Nat) (h : 4096 * hz < 2 ^ 32) :
    prescalerOf pf.uintBits hz = prescalerOf 64 hz := by
  have h64 : 4096 * hz < 2 ^ 64 := lt_trans h (by decide)
  rcases uintBits_cases pf with e | e <;> rw [e]
  unfold prescalerOf ClockPeriodsFractionsCount
  rw [Nat.mod_eq_of_lt h, Nat.mod_eq_of_lt h64]

theorem prescalerOf_supported (pf : Platform) (hz : Nat) (h1 : 24 ≤ hz) (h2 : hz ≤ 1743) :
    prescalerOf pf.uintBits hz = F64.fin (specPrescaler hz * F64.one) := by
  have h := allFrom_spec _ 1720 24 prescalerOf_supported_table hz h1 (by omega)
  rw [prescalerOf_of_fits pf hz (by omega)]
  simpa using h

/-! ## SetFrequency on the supported frequencies -/

theorem F64.lt_units (a b : Int) :
    (F64.fin (a * F64.one)).lt (F64.fin (b * F64.one)) = decide (a < b) := by
  have h : (0 : Int) < (F64.one : Int) := by exact_mod_cast F64.one_pos
  simp only [F64.lt]
  congr 1
  exact propext (mul_lt_mul_right h)

theorem F64.ofNat_units (n : Nat) (h : n < 2 ^ 53) :
    F64.ofNat n = F64.fin ((n : Int) * F64.one) := by
  rw [F64.ofNat_small n h]
  push_cast
  rfl

theorem F64.toUint_units (bits : Nat) (impl : F64 → Nat) (a : Int) (h0 : 0 ≤ a)
    (h1 : a < 2 ^ bits) : F64.toUint bits impl (F64.fin (a * F64.one)) = a.toNat := by
  have h : ((F64.one : Nat) : Int) ≠ 0 := by
    have := F64.one_pos
    omega
  simp only [F64.toUint, Int.mul_tdiv_cancel a h]
  rw [if_pos ⟨h0, h1⟩]

theorem prescalerRejected_supported (pf : Platform) (hz : Nat) (h1 : 24 ≤ hz)
    (h2 : hz ≤ 1743) : prescalerRejected pf.uintBits hz = false := by
  have hs := (specPrescaler_range hz).mpr ⟨h1, h2⟩
  rw [prescalerRejected, prescalerOf_supported pf hz h1 h2, PrescaleMinValue, PrescaleMaxValue,
    F64.ofNat_units 3 (by decide), F64.ofNat_units 255 (by decide), F64.lt_units, F64.lt_units]
  simp only [Bool.or_eq_false_iff, decide_eq_false_iff_not]
  push_cast
  omega

theorem prescaler_byte_supported (pf : Platform) (hz : Nat) (h1 : 24 ≤ hz) (h2 : hz ≤ 1743) :
    (prescalerOf pf.uintBits hz).toUint 8 pf.floatToInt = (specPrescaler hz).toNat := by
  have hs := (specPrescaler_range hz).mpr ⟨h1, h2⟩
  rw [prescalerOf_supported pf hz h1 h2]
  exact F64.toUint_units 8 _ _ (by omega) (by norm_num; omega)

theorem restart_bits (m : Nat) :
    m ||| bitMode1Reset ||| bitMode1AutoIncrement ||| bitMode1RespondToAllCall = m ||| 0xA1 := by
  rw [Nat.lor_assoc, Nat.lor_assoc]
  rfl

/-- What `SetFrequency` does once the prescaler check has passed, spelled out call by call. -/
theorem SetFrequency_accepted (pf : Platform) (p : PCA9685) (bus : Bus) (hz : Nat)
    (h1 : 24 ≤ hz) (h2 : hz ≤ 1743) :
    p.SetFrequency pf bus hz =
      (let n := bus.log.length
       let m := bus.readByte (n + 1) % 256
       let v := (specPrescaler hz).toNat
       let ops := frequencySequence m v
       if bus.fails n then
         ((p, { bus with log := bus.log ++ ops.take 1 }),
           Outcome.error (Err.transport "failed to set address for read"))
       else if bus.fails (n + 1) then
         ((p, { bus with log := bus.log ++ ops.take 2 }),
           Outcome.error (Err.transport "failed to read MODE1 register"))
       else if bus.fails (n + 2) then
         ((p, { bus with log := bus.log ++ ops.take 3 }),
           Outcome.error (Err.transport "failed to put device in sleep mode"))
       else if bus.fails (n + 3) then
         ((p, { bus with log := bus.log ++ ops.take 4 }),
           Outcome.error (Err.transport "failed to change prescaler value"))
       else if bus.fails (n + 4) then
         ((p, { bus with log := bus.log ++ ops.take 5 }),
           Outcome.error (Err.transport "failed to restore MODE1 register"))
       else if bus.fails (n + 5) then
         ((p, { bus with log := bus.log ++ ops }),
           Outcome.error (Err.transport "failed to put device in restart mode"))
       else (({ frequency := hz }, { bus with log := bus.log ++ ops }), Outcome.ok)) := by
  have hmod : hz % 2 ^ 16 = hz := Nat.mod_eq_of_lt (by omega)
  unfold PCA9685.SetFrequency
  rw [prescalerRejected_supported pf hz h1 h2, prescaler_byte_supported pf hz h1 h2, hmod]
  simp only [Bus.Write, Bus.Read, restart_bits, frequencySequence, AddressMode1,
    AddressPrescale, bitMode1Sleep, List.length_append, List.length_singleton,
    List.append_assoc, List.singleton_append, List.cons_append, List.nil_append,
    List.length_cons, List.length_nil, Bool.false_eq_true, if_false, List.take,
    Nat.add_assoc, Nat.reduceAdd]

/-- C3: for a supported frequency (exact prescaler `p` in `[3, 255]`), on a bus whose next six
calls succeed and whose MODE1 read returns `m`, `SetFrequency(hz)` issues exactly the calls
write `[0x00]`, read of one byte, write `[0x00, (m AND 0x7F) OR 0x10]`, write `[0xFE, p]`,
write `[0x00, m]`, write `[0x00, m OR 0xA1]`, in this order, returns `nil` and stores `hz` as the
device frequency; for 50 Hz the prescaler byte is 121. -/
theorem C3_SetFrequency_sequence (pf : Platform) (p : PCA9685) (bus : Bus) (hz : Nat)
    (hsup : 3 ≤ specPrescaler hz ∧ specPrescaler hz ≤ 255)
    (hok : ∀ i < 6, bus.fails (bus.log.length + i) = false) :
    p.SetFrequency pf bus hz =
        (({ frequency := hz },
          { bus with log := bus.log ++
              [BusOp.write [0x00], BusOp.read 1,
                BusOp.write [0x00, ((bus.readByte (bus.log.length + 1) % 256) &&& 0x7F) ||| 0x10],
                BusOp.write [0xFE, (specPrescaler hz).toNat],
                BusOp.write [0x00, bus.readByte (bus.log.length + 1) % 256],
                BusOp.write [0x00, (bus.readByte (bus.log.length + 1) % 256) ||| 0xA1]] }),
          Outcome.ok)
      ∧ specPrescaler 50 = 121 := by
  obtain ⟨h1, h2⟩ := (specPrescaler_range hz).mp hsup
  refine ⟨?_, by decide⟩
  rw [SetFrequency_accepted pf p bus hz h1 h2]
  have f0 := hok 0 (by decide)
  have f1 := hok 1 (by decide)
  have f2 := hok 2 (by decide)
  have f3 := hok 3 (by decide)
  have f4 := hok 4 (by decide)
  have f5 := hok 5 (by decide)
  simp only [Nat.add_zero] at f0
  simp only [f0, f1, f2, f3, f4, f5, Bool.false_eq_true, if_false, frequencySequence]

/-- Witness of C3: 50 Hz on a fresh bus that never fails and reads MODE1 as `0x11`. -/
theorem C3_SetFrequency_sequence_witness :
    (PCA9685.SetFrequency ⟨true, fun _ => 0⟩ { frequency := 0 }
        ⟨[], fun _ => false, fun _ => 0x11⟩ 50 =
        (({ frequency := 50 },
          { (⟨[], fun _ => false, fun _ => 0x11⟩ : Bus) with log := [] ++
              [BusOp.write [0x00], BusOp.read 1,
                BusOp.write [0x00, ((0x11 % 256) &&& 0x7F) ||| 0x10],
                BusOp.write [0xFE, (specPrescaler 50).toNat],
                BusOp.write [0x00, 0x11 % 256],
                BusOp.write [0x00, (0x11 % 256) ||| 0xA1]] }),
          Outcome.ok))
      ∧ specPrescaler 50 = 121 :=
  C3_SetFrequency_sequence ⟨true, fun _ => 0⟩ { frequency := 0 }
    ⟨[], fun _ => false, fun _ => 0x11⟩ 50 (by decide) (fun _ _ => rfl)

/-- C7: for a supported frequency, if the `k`-th of the six bus calls of `SetFrequency` is the
first to fail (`1 ≤ k ≤ 6`), the call returns a transport error, issues exactly the first `k`
calls of the sequence and nothing after, and leaves the device as it was; and on any bus the
device changes only if all six calls succeed. -/
theorem C7_SetFrequency_abort (pf : Platform) (p : PCA9685) (bus : Bus) (hz : Nat)
    (hsup : 3 ≤ specPrescaler hz ∧ specPrescaler hz ≤ 255) :
    (∀ k, 1 ≤ k → k ≤ 6 → bus.fails (bus.log.length + (k - 1)) = true →
      (∀ i < k - 1, bus.fails (bus.log.length + i) = false) →
      (∃ step, (p.SetFrequency pf bus hz).2 = Outcome.error (Err.transport step)) ∧
      (p.SetFrequency pf bus hz).1.1 = p ∧
      (p.SetFrequency pf bus hz).1.2.log = bus.log ++
        (frequencySequence (bus.readByte (bus.log.length + 1) % 256)
          (specPrescaler hz).toNat).take k) ∧
    ((p.SetFrequency pf bus hz).1.1 ≠ p →
      ∀ i < 6, bus.fails (bus.log.length + i) = false) := by
  obtain ⟨h1, h2⟩ := (specPrescaler_range hz).mp hsup
  rw [SetFrequency_accepted pf p bus hz h1 h2]
  constructor
  · intro k hk1 hk6 hfail hprev
    have hk : k = 1 ∨ k = 2 ∨ k = 3 ∨ k = 4 ∨ k = 5 ∨ k = 6 := by omega
    rcases hk with rfl | rfl | rfl | rfl | rfl | rfl
    · simp only [Nat.sub_self, Nat.add_zero] at hfail
      simp [hfail]
    · have f0 := hprev 0 (by decide)
      simp only [Nat.add_zero] at f0
      simp only [Nat.add_one_sub_one] at hfail
      simp [f0, hfail]
    · have f0 := hprev 0 (by decide)
      have f1 := hprev 1 (by decide)
      simp only [Nat.add_zero] at f0
      simp only [Nat.add_one_sub_one] at hfail
      simp [f0, f1, hfail]
    · have f0 := hprev 0 (by decide)
      have f1 := hprev 1 (by decide)
      have f2 := hprev 2 (by decide)
      simp only [Nat.add_zero] at f0
      simp only [Nat.add_one_sub_one] at hfail
      simp [f0, f1, f2, hfail]
    · have f0 := hprev 0 (by decide)
      have f1 := hprev 1 (by decide)
      have f2 := hprev 2 (by decide)
      have f3 := hprev 3 (by decide)
      simp only [Nat.add_zero] at f0
      simp only [Nat.add_one_sub_one] at hfail
      simp [f0, f1, f2, f3, hfail]
    · have f0 := hprev 0 (by decide)
      have f1 := hprev 1 (by decide)
      have f2 := hprev 2 (by decide)
      have f3 := hprev 3 (by decide)
      have f4 := hprev 4 (by decide)
      simp only [Nat.add_zero] at f0
      simp only [Nat.add_one_sub_one] at hfail
      simp [f0, f1, f2, f3, f4, hfail, frequencySequence]
  · intro hne i hi
    by_cases f0 : bus.fails bus.log.length = true
    · simp [f0] at hne
    by_cases f1 : bus.fails (bus.log.length + 1) = true
    · simp [f0, f1] at hne
    by_cases f2 : bus.fails (bus.log.length + 2) = true
    · simp [f0, f1, f2] at hne
    by_cases f3 : bus.fails (bus.log.length + 3) = true
    · simp [f0, f1, f2, f3] at hne
    by_cases f4 : bus.fails (bus.log.length + 4) = true
    · simp [f0, f1, f2, f3, f4] at hne
    by_cases f5 : bus.fails (bus.log.length + 5) = true
    · simp [f0, f1, f2, f3, f4, f5] at hne
    have hi' : i = 0 ∨ i = 1 ∨ i = 2 ∨ i = 3 ∨ i = 4 ∨ i = 5 := by omega
    rcases hi' with rfl | rfl | rfl | rfl | rfl | rfl <;> simp_all

/-- Witness of C7: at 50 Hz on a bus whose third call (the sleep write) fails. -/
theorem C7_SetFrequency_abort_witness :
    (∀ k, 1 ≤ k → k ≤ 6 →
      (⟨[], fun i => decide (i = 2), fun _ => 0x11⟩ : Bus).fails (0 + (k - 1)) = true →
      (∀ i < k - 1, (⟨[], fun i => decide (i = 2), fun _ => 0x11⟩ : Bus).fails (0 + i) = false) →
      (∃ step, (PCA9685.SetFrequency ⟨true, fun _ => 0⟩ { frequency := 7 }
          ⟨[], fun i => decide (i = 2), fun _ => 0x11⟩ 50).2
            = Outcome.error (Err.transport step)) ∧
      (PCA9685.SetFrequency ⟨true, fun _ => 0⟩ { frequency := 7 }
          ⟨[], fun i => decide (i = 2), fun _ => 0x11⟩ 50).1.1 = { frequency := 7 } ∧
      (PCA9685.SetFrequency ⟨true, fun _ => 0⟩ { frequency := 7 }
          ⟨[], fun i => decide (i = 2), fun _ => 0x11⟩ 50).1.2.log = [] ++
        (frequencySequence (0x11 % 256) (specPrescaler 50).toNat).take k) ∧
    ((PCA9685.SetFrequency ⟨true, fun _ => 0⟩ { frequency := 7 }
          ⟨[], fun i => decide (i = 2), fun _ => 0x11⟩ 50).1.1 ≠ { frequency := 7 } →
      ∀ i < 6, (⟨[], fun i => decide (i = 2), fun _ => 0x11⟩ : Bus).fails (0 + i) = false) :=
  C7_SetFrequency_abort ⟨true, fun _ => 0⟩ { frequency := 7 }
    ⟨[], fun i => decide (i = 2), fun _ => 0x11⟩ 50 (by decide)

/-! ## The prescaler check outside the supported frequencies -/

theorem F64.two_one_le_overflow : 2 * F64.one ≤ F64.overflowUnits := by
  unfold F64.one F64.overflowUnits
  calc 2 * 2 ^ 1074 = 2 ^ 1075 := by rw [pow_succ]; ring
    _ ≤ 2 ^ 2098 := Nat.pow_le_pow_right (by decide) (by decide)

theorem roundUnits_le_of_le_double (n d m e : Nat) (hd : 0 < d) (hle : n ≤ m * 2 ^ e * d)
    (hm : m < 2 ^ 53) (he : 53 + e ≤ 4149) : roundUnits n d ≤ m * 2 ^ e := by
  have hb : m * 2 ^ e < 2 ^ 4149 := mul_two_pow_lt m e 4149 hm he
  have hx := roundUnits_mono_cross n d (m * 2 ^ e) 1 hd (by decide)
    (by rw [Nat.mul_one]; exact hle) (by rw [Nat.div_one]; exact hb)
  rw [roundUnits_exact m e hm hb] at hx
  exact hx

/-- Rounding a magnitude of at most half the overflow threshold does not overflow, and stays
below any double that bounds the magnitude. -/
theorem roundUnits_one_lt (n : Nat) (h : 2 * n ≤ F64.overflowUnits) :
    roundUnits n 1 < F64.overflowUnits := by
  have h1 : n ≤ 1 * 2 ^ 2097 * 1 := by
    have e : F64.overflowUnits = 2 * (1 * 2 ^ 2097 * 1) := by
      rw [F64.overflowUnits, Nat.mul_one, Nat.one_mul, show 2098 = 2097 + 1 from rfl, pow_succ]
      ring
    rw [e] at h
    exact Nat.le_of_mul_le_mul_left h (by decide)
  have h2 := roundUnits_le_of_le_double n 1 1 2097 (by decide) h1 (by decide) (by decide)
  have h3 : 1 * 2 ^ 2097 < F64.overflowUnits := by
    rw [F64.overflowUnits, Nat.one_mul]
    exact Nat.pow_lt_pow_right (by decide) (by decide)
  exact lt_of_le_of_lt h2 h3

theorem overflowUnits_lt_limit : F64.overflowUnits < 2 ^ 4149 := by
  rw [F64.overflowUnits]
  exact Nat.pow_lt_pow_right (by decide) (by decide)

theorem F64.sub_fin (a b : Int) :
    F64.sub (F64.fin a) (F64.fin b) = F64.round (decide (a - b < 0)) (a - b).natAbs 1 := rfl

theorem F64.RoundToEven_nonneg (n : Nat) :
    F64.RoundToEven (F64.fin (n : Int))
      = F64.fin ((rheDiv n F64.one * F64.one : Nat) : Int) := by
  rw [F64.RoundToEven, if_neg (by omega), Int.natAbs_ofNat]

theorem F64.RoundToEven_neg (n : Nat) (h : 0 < n) :
    F64.RoundToEven (F64.fin (-(n : Int)))
      = F64.fin (-((rheDiv n F64.one * F64.one : Nat) : Int)) := by
  rw [F64.RoundToEven, if_pos (by omega), Int.natAbs_neg, Int.natAbs_ofNat]

/-- The difference `x - y` of two finite doubles `x ≥ y ≥ 0` that does not overflow. -/
theorem F64.sub_of_le (a b : Nat) (h : b ≤ a)
    (hlt : roundUnits (a - b) 1 < F64.overflowUnits) :
    F64.sub (F64.fin a) (F64.fin b) = F64.fin ((roundUnits (a - b) 1 : Nat) : Int) := by
  have hcast : ((a : Int) - (b : Int)) = ((a - b : Nat) : Int) := by omega
  have hnn : ¬ (((a - b : Nat) : Int) < 0) := by omega
  rw [F64.sub_fin, hcast, Int.natAbs_ofNat, F64.round_of_lt _ _ _ hlt, decide_eq_false hnn]
  rfl

/-- The difference `x - y` of two finite doubles `0 ≤ x < y` that does not overflow. -/
theorem F64.sub_of_lt (a b : Nat) (h : a < b)
    (hlt : roundUnits (b - a) 1 < F64.overflowUnits) :
    F64.sub (F64.fin a) (F64.fin b) = F64.fin (-((roundUnits (b - a) 1 : Nat) : Int)) := by
  have hneg : ((a : Int) - (b : Int)) < 0 := by omega
  have habs : ((a : Int) - (b : Int)).natAbs = b - a := by omega
  rw [F64.sub_fin, habs, F64.round_of_lt _ _ _ hlt, decide_eq_true hneg]
  rfl

/-- `RoundToEven(x - 1.0)` for a finite `x ≥ 0` is finite, and it is bounded by its value at any
larger finite `x`. -/
theorem roundToEven_sub_one_le (q qmax : Nat) (h : q ≤ qmax)
    (hmax : 2 * qmax ≤ F64.overflowUnits) :
    ∃ z : Int, F64.RoundToEven (F64.sub (F64.fin q) (F64.fin F64.one)) = F64.fin z ∧
      z ≤ ((rheDiv (roundUnits (qmax - F64.one) 1) F64.one * F64.one : Nat) : Int) := by
  have hone := F64.one_pos
  have hov := F64.two_one_le_overflow
  have hbig := overflowUnits_lt_limit
  by_cases hq : F64.one ≤ q
  · have hmono : roundUnits (q - F64.one) 1 ≤ roundUnits (qmax - F64.one) 1 :=
      roundUnits_mono _ _ 1 (by omega)
        (by rw [Nat.div_one]; exact lt_of_le_of_lt (by omega) hbig)
    have hlt := roundUnits_one_lt (q - F64.one) (by omega)
    refine ⟨((rheDiv (roundUnits (q - F64.one) 1) F64.one * F64.one : Nat) : Int), ?_, ?_⟩
    · rw [F64.sub_of_le q F64.one hq hlt, F64.RoundToEven_nonneg]
    · exact_mod_cast Nat.mul_le_mul_right _ (rheDiv_mono _ _ _ hmono)
  · have hlt := roundUnits_one_lt (F64.one - q) (by omega)
    rw [F64.sub_of_lt q F64.one (by omega) hlt]
    by_cases ht : roundUnits (F64.one - q) 1 = 0
    · refine ⟨((rheDiv 0 F64.one * F64.one : Nat) : Int), ?_, ?_⟩
      · rw [ht, Nat.cast_zero, neg_zero]
        exact F64.RoundToEven_nonneg 0
      · have h0 : rheDiv 0 F64.one = 0 := by
          have := rheDiv_mul_self 0 F64.one hone
          rwa [Nat.zero_mul] at this
        rw [h0, Nat.zero_mul]
        exact Int.ofNat_le.mpr (Nat.zero_le _)
    · refine ⟨-((rheDiv (roundUnits (F64.one - q) 1) F64.one * F64.one : Nat) : Int), ?_, ?_⟩
      · exact F64.RoundToEven_neg _ (Nat.pos_of_ne_zero ht)
      · have h1 : (0 : Int) ≤ ((rheDiv (roundUnits (F64.one - q) 1) F64.one * F64.one : Nat) : Int) :=
          Int.ofNat_nonneg _
        have h2 : (0 : Int) ≤ ((rheDiv (roundUnits (qmax - F64.one) 1) F64.one * F64.one : Nat) : Int) :=
          Int.ofNat_nonneg _
        exact le_trans (neg_nonpos.mpr h1) h2

/-- The `float64` pipeline of `SetFrequency` at 1744 Hz: the quotient `25e6 / (4096 * 1744)`,
less one, rounds to 2. -/
theorem prescaler_at_1744 :
    rheDiv (roundUnits (roundUnits (25000000 * F64.one) (1744 * 2 ^ 12) - F64.one) 1) F64.one
      = 2 := by
  decide!

theorem clock_units_bound : 2 * (25000000 * 2 ^ 1074) ≤ F64.overflowUnits := by
  rw [F64.overflowUnits, ← Nat.mul_assoc]
  exact le_of_lt (mul_two_pow_lt (2 * 25000000) 1074 2098 (by decide) (by decide))

/-- The quotient `25e6 / x` in `float64` for `x = k * 4096`, `k ≥ 1`: finite, and at most
`25e6`. -/
theorem clock_quotient_le (k : Nat) (hk : 1 ≤ k) :
    roundUnits (25000000 * F64.one) (k * 2 ^ 12) ≤ 25000000 * 2 ^ 1074 := by
  refine roundUnits_le_of_le_double _ _ 25000000 1074 (Nat.mul_pos hk (Nat.two_pow_pos 12)) ?_
    (by decide) (by decide)
  rw [F64.one]
  exact Nat.le_mul_of_pos_right _ (Nat.mul_pos hk (Nat.two_pow_pos 12))

/-- From 1744 Hz on (the product `4096 * hz` being `k * 4096` after wrap-around, `k < 2 ^ 52`),
the rounded prescaler is a finite number below 3. -/
theorem prescaler_high (k : Nat) (hk : 1744 ≤ k) (hk2 : k < 2 ^ 52) :
    ∃ z : Int,
      F64.RoundToEven (F64.sub (F64.div (F64.ofNat ClockDeviceHZ) (F64.ofNat (k * 2 ^ 12)))
        (F64.ofNat 1)) = F64.fin z ∧ z < 3 * (F64.one : Int) := by
  have hone := F64.one_pos
  have hk1 : 1 ≤ k := by omega
  have hpos : 0 < k * 2 ^ 12 := Nat.mul_pos hk1 (Nat.two_pow_pos 12)
  have hq := clock_quotient_le k hk1
  have hq0 := clock_quotient_le 1744 (by decide)
  have hcb := clock_units_bound
  have hmono : roundUnits (25000000 * F64.one) (k * 2 ^ 12)
      ≤ roundUnits (25000000 * F64.one) (1744 * 2 ^ 12) := by
    refine roundUnits_mono_cross _ _ _ _ hpos (by decide) ?_ ?_
    · exact Nat.mul_le_mul_left _ (Nat.mul_le_mul_right _ hk)
    · refine lt_of_le_of_lt (Nat.div_le_self _ _) ?_
      rw [F64.one]
      exact mul_two_pow_lt 25000000 1074 4149 (by decide) (by decide)
  have hlt : roundUnits (25000000 * F64.one) (k * 2 ^ 12) < F64.overflowUnits := by omega
  obtain ⟨z, hz, hle⟩ := roundToEven_sub_one_le _ _ hmono (by omega)
  refine ⟨z, ?_, ?_⟩
  · rw [ClockDeviceHZ, F64.ofNat_small 25000000 (by decide),
      F64.ofNat_exact k 12 (by omega) (by decide), F64.div_units _ _ hpos,
      F64.round_of_lt _ _ _ hlt, F64.ofNat_small 1 (by decide), Nat.one_mul]
    exact hz
  · rw [prescaler_at_1744] at hle
    have : ((2 * F64.one : Nat) : Int) = 2 * (F64.one : Int) := by push_cast; rfl
    have hpos' : (0 : Int) < (F64.one : Int) := by exact_mod_cast hone
    omega

/-- Below 24 Hz (0 Hz included) the prescaler check refuses the frequency. -/
theorem prescalerRejected_low_table :
    allFrom (fun k => prescalerRejected 64 k) 0 24 = true := by
  decide!

/-- The `uint` product `4096 * clockSpeed` keeps only `clockSpeed` modulo `2 ^ (bits - 12)`. -/
theorem uint_product_wrap (pf : Platform) (hz : Nat) :
    (ClockPeriodsFractionsCount * hz) % 2 ^ pf.uintBits
      = 4096 * (hz % 2 ^ (pf.uintBits - 12)) := by
  rw [ClockPeriodsFractionsCount]
  rcases uintBits_cases pf with e | e <;> rw [e]
  · exact Nat.mul_mod_mul_left 4096 hz (2 ^ 20)
  · exact Nat.mul_mod_mul_left 4096 hz (2 ^ 52)

theorem wrapped_lt (pf : Platform) (hz : Nat) : hz % 2 ^ (pf.uintBits - 12) < 2 ^ 52 := by
  rcases uintBits_cases pf with e | e <;> rw [e]
  · exact lt_trans (Nat.mod_lt _ (by decide)) (by decide)
  · exact Nat.mod_lt _ (by decide)

/-- The prescaler depends on the frequency only through its residue `k` modulo
`2 ^ (bits - 12)`: it is the prescaler of `k` Hz. -/
theorem prescalerOf_wrap (pf : Platform) (hz : Nat) :
    prescalerOf pf.uintBits hz = prescalerOf 64 (hz % 2 ^ (pf.uintBits - 12)) := by
  have h := wrapped_lt pf hz
  have h64 : (ClockPeriodsFractionsCount * (hz % 2 ^ (pf.uintBits - 12))) % 2 ^ 64
      = 4096 * (hz % 2 ^ (pf.uintBits - 12)) := by
    rw [ClockPeriodsFractionsCount]
    exact Nat.mod_eq_of_lt (by omega)
  unfold prescalerOf
  rw [uint_product_wrap pf hz, h64]

theorem prescalerRejected_wrap (pf : Platform) (hz : Nat) :
    prescalerRejected pf.uintBits hz = prescalerRejected 64 (hz % 2 ^ (pf.uintBits - 12)) := by
  unfold prescalerRejected
  rw [prescalerOf_wrap pf hz]

theorem prescalerRejected_64 (k : Nat) (hk : k < 2 ^ 52) :
    prescalerRejected 64 k = true ↔ ¬ (24 ≤ k ∧ k ≤ 1743) := by
  by_cases hlow : k < 24
  · have := allFrom_spec _ 24 0 prescalerRejected_low_table k (Nat.zero_le _) (by omega)
    simp only [this, true_iff]
    omega
  · by_cases hhigh : k ≤ 1743
    · have := prescalerRejected_supported ⟨true, fun _ => 0⟩ k (by omega) hhigh
      have e : (⟨true, fun _ => 0⟩ : Platform).uintBits = 64 := rfl
      rw [e] at this
      simp only [this, Bool.false_eq_true, false_iff, not_not]
      omega
    · obtain ⟨z, hz, hlt⟩ := prescaler_high k (by omega) hk
      have hx : (ClockPeriodsFractionsCount * k) % 2 ^ 64 = k * 2 ^ 12 := by
        rw [ClockPeriodsFractionsCount, Nat.mod_eq_of_lt (by omega)]
        omega
      have : prescalerRejected 64 k = true := by
        unfold prescalerRejected prescalerOf
        rw [hx, hz, PrescaleMinValue, F64.ofNat_units 3 (by decide)]
        have : (F64.fin z).lt (F64.fin ((3 : Nat) * (F64.one : Int))) = true := by
          rw [F64.lt]
          exact decide_eq_true hlt
        rw [this, Bool.true_or]
      simp only [this, true_iff]
      omega

/-- Which frequencies `SetFrequency` refuses: exactly those whose residue modulo
`2 ^ (bits - 12)` is not between 24 and 1743. -/
theorem prescalerRejected_iff (pf : Platform) (hz : Nat) :
    prescalerRejected pf.uintBits hz = true ↔
      ¬ (24 ≤ hz % 2 ^ (pf.uintBits - 12) ∧ hz % 2 ^ (pf.uintBits - 12) ≤ 1743) := by
  rw [prescalerRejected_wrap pf hz]
  exact prescalerRejected_64 _ (wrapped_lt pf hz)

/-! ## SetFrequency: refused frequencies, and the wrap-around of `4096 * clockSpeed` -/

/-- A frequency whose product `4096 * hz` fits in `uint` and whose exact prescaler lies outside
`[3, 255]` is refused before any bus call, and the device keeps its frequency. -/
theorem SetFrequency_unsupported_of_fits (pf : Platform) (p : PCA9685) (bus : Bus) (hz : Nat)
    (hfit : 4096 * hz < 2 ^ pf.uintBits)
    (hout : ¬ (3 ≤ specPrescaler hz ∧ specPrescaler hz ≤ 255)) :
    p.SetFrequency pf bus hz = ((p, bus), Outcome.error Err.unsupportedFrequency) := by
  have hlt : hz < 2 ^ (pf.uintBits - 12) := by
    rcases uintBits_cases pf with e | e <;> rw [e] at hfit ⊢ <;> omega
  have hrej : prescalerRejected pf.uintBits hz = true := by
    rw [prescalerRejected_iff, Nat.mod_eq_of_lt hlt, ← specPrescaler_range]
    exact hout
  rw [PCA9685.SetFrequency, if_pos hrej]

/-- C4 (the code at the failing input): with a 64-bit `uint`, `SetFrequency(2^52 + 50)` has
the exact prescaler `-1`, outside `[3, 255]`, yet the product `4096 * clockSpeed` wraps to
`4096 * 50`, the check passes, the six bus calls are issued with prescaler byte 121, `nil` is
returned and the stored frequency changes from 7 to 50; the same happens with a 32-bit
`uint` at `2^20 + 50`. -/
theorem C4_overflow_accepted :
    specPrescaler (2 ^ 52 + 50) = -1 ∧
    (PCA9685.SetFrequency ⟨true, fun _ => 0⟩ { frequency := 7 }
        ⟨[], fun _ => false, fun _ => 0x11⟩ (2 ^ 52 + 50)).2 = Outcome.ok ∧
    (PCA9685.SetFrequency ⟨true, fun _ => 0⟩ { frequency := 7 }
        ⟨[], fun _ => false, fun _ => 0x11⟩ (2 ^ 52 + 50)).1.1.frequency = 50 ∧
    (PCA9685.SetFrequency ⟨true, fun _ => 0⟩ { frequency := 7 }
        ⟨[], fun _ => false, fun _ => 0x11⟩ (2 ^ 52 + 50)).1.2.log
      = frequencySequence 0x11 121 ∧
    specPrescaler (2 ^ 20 + 50) = -1 ∧
    (PCA9685.SetFrequency ⟨false, fun _ => 0⟩ { frequency := 7 }
        ⟨[], fun _ => false, fun _ => 0x11⟩ (2 ^ 20 + 50)).2 = Outcome.ok ∧
    (PCA9685.SetFrequency ⟨false, fun _ => 0⟩ { frequency := 7 }
        ⟨[], fun _ => false, fun _ => 0x11⟩ (2 ^ 20 + 50)).1.1.frequency = 50 ∧
    (PCA9685.SetFrequency ⟨false, fun _ => 0⟩ { frequency := 7 }
        ⟨[], fun _ => false, fun _ => 0x11⟩ (2 ^ 20 + 50)).1.2.log
      = frequencySequence 0x11 121 := by
  decide!

/-- On every frequency from 24 to 1743 Hz the byte `SetFrequency` writes to PRESCALE is the
specification's `round_half_even(25e6 / (4096 * hz)) - 1`: subtracting before rounding, in
`float64`, gives the same value as rounding the exact quotient first. -/
theorem SetFrequency_prescale_byte (pf : Platform) (p : PCA9685) (bus : Bus) (hz : Nat)
    (h1 : 24 ≤ hz) (h2 : hz ≤ 1743) (hok : ∀ i < 4, bus.fails (bus.log.length + i) = false) :
    (p.SetFrequency pf bus hz).1.2.log[bus.log.length + 3]?
      = some (BusOp.write [0xFE, (specPrescaler hz).toNat]) := by
  rw [SetFrequency_accepted pf p bus hz h1 h2]
  have f0 := hok 0 (by decide)
  have f1 := hok 1 (by decide)
  have f2 := hok 2 (by decide)
  have f3 := hok 3 (by decide)
  simp only [Nat.add_zero] at f0
  simp only [f0, f1, f2, f3, Bool.false_eq_true, if_false, frequencySequence]
  split_ifs <;>
    (rw [List.getElem?_append_right (Nat.le_add_right _ _), Nat.add_sub_cancel_left]; rfl)

/-- C5 (the code at the failing input): with a 64-bit `uint`, `SetFrequency(2^52 + 50)` is
accepted and the byte written to PRESCALE (`0xFE`) is 121, whereas the specification's formula
on the exact frequency gives `round_half_even(25e6 / (4096 * hz)) - 1 = 0 - 1 = -1`. -/
theorem C5_overflow_prescale_byte :
    prescalerRejected 64 (2 ^ 52 + 50) = false ∧
    (PCA9685.SetFrequency ⟨true, fun _ => 0⟩ { frequency := 0 }
        ⟨[], fun _ => false, fun _ => 0x11⟩ (2 ^ 52 + 50)).1.2.log[3]?
      = some (BusOp.write [0xFE, 121]) ∧
    rheDiv 25000000 (4096 * (2 ^ 52 + 50)) = 0 ∧
    specPrescaler (2 ^ 52 + 50) = -1 := by
  decide!

/-- C6 (the code at the failing input): `SetFrequency(1527)`, above the documented maximum of
1526 Hz, is accepted on both sizes of `uint`: the check passes, the prescaler byte written is 3
(as for 1526 Hz) and 1527 is stored as the frequency; so is 1743, and 1744 is the first
frequency above that is refused. -/
theorem C6_above_documented_max_accepted :
    prescalerRejected 64 1527 = false ∧ prescalerRejected 32 1527 = false ∧
    (PCA9685.SetFrequency ⟨true, fun _ => 0⟩ { frequency := 0 }
        ⟨[], fun _ => false, fun _ => 0x11⟩ 1527).2 = Outcome.ok ∧
    (PCA9685.SetFrequency ⟨true, fun _ => 0⟩ { frequency := 0 }
        ⟨[], fun _ => false, fun _ => 0x11⟩ 1527).1.1.frequency = 1527 ∧
    (PCA9685.SetFrequency ⟨true, fun _ => 0⟩ { frequency := 0 }
        ⟨[], fun _ => false, fun _ => 0x11⟩ 1527).1.2.log = frequencySequence 0x11 3 ∧
    (PCA9685.SetFrequency ⟨true, fun _ => 0⟩ { frequency := 0 }
        ⟨[], fun _ => false, fun _ => 0x11⟩ 1526).1.2.log = frequencySequence 0x11 3 ∧
    prescalerRejected 64 1743 = false ∧ prescalerRejected 64 1744 = true := by
  decide!

/-- The frequencies `SetFrequency` accepts when `4096 * hz` fits in `uint`: exactly 24 to 1743;
in particular every frequency below 24 is refused and every frequency from 25 to 1526 is
accepted. -/
theorem SetFrequency_accepts_iff_of_fits (pf : Platform) (hz : Nat)
    (hfit : 4096 * hz < 2 ^ pf.uintBits) :
    prescalerRejected pf.uintBits hz = false ↔ (24 ≤ hz ∧ hz ≤ 1743) := by
  have hlt : hz < 2 ^ (pf.uintBits - 12) := by
    rcases uintBits_cases pf with e | e <;> rw [e] at hfit ⊢ <;> omega
  have h := prescalerRejected_iff pf hz
  rw [Nat.mod_eq_of_lt hlt] at h
  constructor
  · intro hf
    by_contra hn
    rw [h.mpr hn] at hf
    exact Bool.noConfusion hf
  · intro hr
    cases hc : prescalerRejected pf.uintBits hz
    · rfl
    · exact absurd hr (h.mp hc)

/-! ## The period duration and the "too long" check -/

theorem F64.ofNat_zero : F64.ofNat 0 = F64.fin 0 := by
  rw [F64.ofNat_units 0 (by decide)]
  exact congrArg F64.fin (Int.zero_mul _)

theorem million_units_pos : (0 : Int) < ((1000000 * F64.one : Nat) : Int) :=
  Int.ofNat_lt.mpr (Nat.mul_pos (by decide) F64.one_pos)

/-- At frequency 0 the period duration is `+Inf`. -/
theorem periodDurationOf_zero (c : Channels) (hf : c.frequency = 0) :
    periodDurationOf c = F64.inf false := by
  have h := million_units_pos
  rw [periodDurationOf, hf, F64.ofNat_zero, timeMillisecond,
    F64.ofNat_small 1000000 (by decide), F64.div, if_pos rfl, if_neg (by omega)]
  exact congrArg F64.inf (decide_eq_false (by omega))

theorem period_units_le (f : Nat) (hf : 1 ≤ f) :
    roundUnits (1000000 * F64.one) f ≤ 1000000 * 2 ^ 1074 := by
  refine roundUnits_le_of_le_double _ _ 1000000 1074 hf ?_ (by decide) (by decide)
  rw [F64.one]
  exact Nat.le_mul_of_pos_right _ hf

theorem million_units_bound : 2 * (1000000 * 2 ^ 1074) ≤ F64.overflowUnits := by
  rw [F64.overflowUnits, ← Nat.mul_assoc]
  exact le_of_lt (mul_two_pow_lt (2 * 1000000) 1074 2098 (by decide) (by decide))

/-- At a frequency `f ≥ 1` the period duration is the double nearest to `10^6 / f`. -/
theorem periodDurationOf_pos (c : Channels) (hf : 1 ≤ c.frequency) (hf2 : c.frequency < 2 ^ 16) :
    periodDurationOf c
      = F64.fin ((roundUnits (1000000 * F64.one) c.frequency : Nat) : Int) := by
  have hb := period_units_le c.frequency hf
  have hm := million_units_bound
  have hlt : roundUnits (1000000 * F64.one) c.frequency < F64.overflowUnits := by omega
  rw [periodDurationOf, timeMillisecond, F64.ofNat_small 1000000 (by decide),
    F64.ofNat_small c.frequency (lt_trans hf2 (by decide)), F64.div_units _ _ hf,
    F64.round_of_lt _ _ _ hlt]
  rfl

theorem one_split : F64.one = 2 ^ 16 * 2 ^ 1058 := by
  rw [F64.one, ← pow_add]

/-- The double nearest to `10^6 / f` lies below the integer `s` exactly when `10^6 / f` does. -/
theorem period_units_lt_iff (f s : Nat) (hf : 1 ≤ f) (hf2 : f < 2 ^ 16) (hs : s < 2 ^ 16) :
    roundUnits (1000000 * F64.one) f < s * F64.one ↔ 1000000 < s * f := by
  have hone := F64.one_pos
  constructor
  · intro h
    by_contra hn
    push_neg at hn
    have hle : roundUnits (s * F64.one) 1 ≤ roundUnits (1000000 * F64.one) f := by
      refine roundUnits_mono_cross _ _ _ _ (by decide) hf ?_ ?_
      · rw [Nat.mul_one, Nat.mul_right_comm]
        exact Nat.mul_le_mul_right _ hn
      · refine lt_of_le_of_lt (Nat.div_le_self _ _) ?_
        rw [F64.one]
        exact mul_two_pow_lt 1000000 1074 4149 (by decide) (by decide)
    have hex : roundUnits (s * F64.one) 1 = s * F64.one := by
      rw [F64.one]
      exact roundUnits_exact s 1074 (lt_trans hs (by decide))
        (mul_two_pow_lt s 1074 4149 (lt_trans hs (by decide)) (by decide))
    omega
  · intro h
    have hs1 : 1 ≤ s := by
      rcases Nat.eq_zero_or_pos s with h0 | h0
      · rw [h0, Nat.zero_mul] at h; omega
      · exact h0
    have hm : s * 2 ^ 16 - 1 < 2 ^ 53 := by omega
    have hle : 1000000 * F64.one ≤ (s * 2 ^ 16 - 1) * 2 ^ 1058 * f := by
      rw [one_split]
      have h1 : 1000000 * 2 ^ 16 ≤ (s * 2 ^ 16 - 1) * f := by
        have e : (s * 2 ^ 16 - 1) * f = s * f * 2 ^ 16 - f := by
          rw [Nat.sub_mul, Nat.one_mul, Nat.mul_right_comm]
        rw [e]
        omega
      calc 1000000 * (2 ^ 16 * 2 ^ 1058) = 1000000 * 2 ^ 16 * 2 ^ 1058 := by ring
        _ ≤ (s * 2 ^ 16 - 1) * f * 2 ^ 1058 := Nat.mul_le_mul_right _ h1
        _ = (s * 2 ^ 16 - 1) * 2 ^ 1058 * f := by ring
    have hb := roundUnits_le_of_le_double _ f (s * 2 ^ 16 - 1) 1058 hf hle hm (by decide)
    have hlt : (s * 2 ^ 16 - 1) * 2 ^ 1058 < s * F64.one := by
      rw [one_split, ← Nat.mul_assoc]
      exact Nat.mul_lt_mul_of_pos_right (by omega) (Nat.two_pow_pos _)
    exact lt_of_le_of_lt hb hlt

/-- The check `periodDuration < float64(s)` of the duration setters, for a 16-bit `s` and a
16-bit frequency `f` (0 included): it holds exactly when `s` exceeds `10^6 / f`. -/
theorem too_long_iff (c : Channels) (s : Nat) (hf2 : c.frequency < 2 ^ 16) (hs : s < 2 ^ 16) :
    (periodDurationOf c).lt (F64.ofNat s) = true ↔ 1000000 < s * c.frequency := by
  rw [F64.ofNat_small s (lt_trans hs (by decide))]
  rcases Nat.eq_zero_or_pos c.frequency with h0 | hpos
  · rw [periodDurationOf_zero c h0, h0, Nat.mul_zero, F64.lt]
    constructor
    · intro h; exact Bool.noConfusion h
    · intro h; omega
  · rw [periodDurationOf_pos c hpos hf2, F64.lt, decide_eq_true_iff, Int.ofNat_lt]
    exact period_units_lt_iff c.frequency s hpos hf2 hs

/-! ## The duration setters -/

/-- When the `uint16` sum `shift + duration` does not wrap and exceeds the period `10^6 / f`,
`SetOnPeriodDurationWithShift` fails with the duration-too-long error and leaves the bus
untouched. -/
theorem SetOnPeriodDurationWithShift_too_long (pf : Platform) (c : Channels) (bus : Bus)
    (shift dur : Nat) (hf : c.frequency < 2 ^ 16) (hsum : shift + dur < 2 ^ 16)
    (hlong : 1000000 < (shift + dur) * c.frequency) :
    c.SetOnPeriodDurationWithShift pf bus shift dur
      = (bus, Outcome.error Err.durationTooLong) := by
  rw [Channels.SetOnPeriodDurationWithShift, Nat.mod_eq_of_lt hsum,
    if_pos ((too_long_iff c (shift + dur) hf hsum).mpr hlong)]

/-- When the `uint16` sum `shift + duration` does not wrap and does not exceed the period
`10^6 / f`, `SetOnPeriodDurationWithShift` is `SetPeriod` on the two fraction numbers it
computes in `float64`. -/
theorem SetOnPeriodDurationWithShift_fits (pf : Platform) (c : Channels) (bus : Bus)
    (shift dur : Nat) (hf : c.frequency < 2 ^ 16) (hsum : shift + dur < 2 ^ 16)
    (hfit : (shift + dur) * c.frequency ≤ 1000000) :
    c.SetOnPeriodDurationWithShift pf bus shift dur
      = c.SetPeriod bus (fractionNumber pf c shift) (fractionNumber pf c (shift + dur)) := by
  have hnot : ¬ ((periodDurationOf c).lt (F64.ofNat (shift + dur)) = true) := by
    rw [too_long_iff c (shift + dur) hf hsum]
    omega
  rw [Channels.SetOnPeriodDurationWithShift, Nat.mod_eq_of_lt hsum, if_neg hnot]

/-- C8 (the code at the failing input): at 10 Hz the period is 100000 µs; with shift 60000 and
duration 60000 the sum 120000 exceeds it, but the `uint16` sum wraps to 54464, the check
passes and `SetPeriod(2457, 2230)` writes to the bus. -/
theorem C8_wrapped_sum_writes :
    1000000 < (60000 + 60000) * 10 ∧
    (60000 + 60000) % 2 ^ 16 = 54464 ∧
    (Channels.SetOnPeriodDurationWithShift ⟨true, fun _ => 0⟩ (NewChannels 6 10 1)
        ⟨[], fun _ => false, fun _ => 0⟩ 60000 60000).2 = Outcome.ok ∧
    (Channels.SetOnPeriodDurationWithShift ⟨true, fun _ => 0⟩ (NewChannels 6 10 1)
        ⟨[], fun _ => false, fun _ => 0⟩ 60000 60000).1.log
      = [BusOp.write (expectedBuffer 6 1 2457 2230)] := by
  decide!

/-- C9 (counterexample): at 50 Hz, `SetOnPeriodDurationWithShift(0, 2000)` (within the period
of 20000 µs) writes the fractions `(0, 409)`, whereas the exact formula gives
`round_half_even(2000 * 4095 * 50 / 10^6) = round_half_even(409.5) = 410`, so the call is not
`SetPeriod(0, 410)`. -/
theorem C9_counterexample_tie :
    2000 * 50 ≤ 1000000 ∧ specFraction 50 0 = 0 ∧ specFraction 50 2000 = 410 ∧
    (Channels.SetOnPeriodDurationWithShift ⟨true, fun _ => 0⟩ (NewChannels 6 50 1)
        ⟨[], fun _ => false, fun _ => 0⟩ 0 2000).1.log
      = [BusOp.write (expectedBuffer 6 1 0 409)] ∧
    (Channels.SetOnPeriodDurationWithShift ⟨true, fun _ => 0⟩ (NewChannels 6 50 1)
        ⟨[], fun _ => false, fun _ => 0⟩ 0 2000).1.log
      ≠ (Channels.SetPeriod (NewChannels 6 50 1) ⟨[], fun _ => false, fun _ => 0⟩
          (specFraction 50 0) (specFraction 50 2000)).1.log := by
  decide!

theorem SetPeriod_ne_too_long (c : Channels) (bus : Bus) (a b : Nat) :
    (c.SetPeriod bus a b).2 ≠ Outcome.error Err.durationTooLong := by
  unfold Channels.SetPeriod
  split_ifs
  · simp
  · simp
  · unfold Channels.writeOnOffValue
    cases onOffBuffer c a b with
    | none => simp
    | some buf =>
      simp only []
      split_ifs <;> simp

/-- C10: for a 16-bit `microseconds`, `SetOnPeriodDuration(microseconds)` gives the same result
(same error or same bus write) as `SetOnPeriodDurationWithShift(0, microseconds)`; with a 16-bit
frequency it is the duration-too-long error exactly when `microseconds` exceeds the period
`10^6 / f`, and then the bus is untouched. -/
theorem C10_SetOnPeriodDuration_delegates (pf : Platform) (c : Channels) (bus : Bus)
    (microseconds : Nat) (hus : microseconds < 2 ^ 16) :
    c.SetOnPeriodDuration pf bus microseconds
        = c.SetOnPeriodDurationWithShift pf bus 0 microseconds ∧
    (c.frequency < 2 ^ 16 →
      ((c.SetOnPeriodDuration pf bus microseconds).2 = Outcome.error Err.durationTooLong
          ↔ 1000000 < microseconds * c.frequency) ∧
      (1000000 < microseconds * c.frequency →
        (c.SetOnPeriodDuration pf bus microseconds).1 = bus)) := by
  have hsum : (0 + microseconds) % 2 ^ 16 = microseconds := by
    rw [Nat.zero_add, Nat.mod_eq_of_lt hus]
  have heq : c.SetOnPeriodDuration pf bus microseconds
      = c.SetOnPeriodDurationWithShift pf bus 0 microseconds := by
    rw [Channels.SetOnPeriodDuration]
    by_cases hc : (periodDurationOf c).lt (F64.ofNat microseconds) = true
    · rw [if_pos hc, Channels.SetOnPeriodDurationWithShift, hsum, if_pos hc]
    · rw [if_neg hc]
  refine ⟨heq, fun hf => ?_⟩
  have hiff := too_long_iff c microseconds hf hus
  rw [Channels.SetOnPeriodDuration]
  by_cases hc : (periodDurationOf c).lt (F64.ofNat microseconds) = true
  · rw [if_pos hc]
    exact ⟨⟨fun _ => hiff.mp hc, fun _ => rfl⟩, fun _ => rfl⟩
  · rw [if_neg hc]
    have hnl : ¬ 1000000 < microseconds * c.frequency := fun h => hc (hiff.mpr h)
    refine ⟨⟨fun h => ?_, fun h => absurd h hnl⟩, fun h => absurd h hnl⟩
    rw [Channels.SetOnPeriodDurationWithShift, hsum, if_neg hc] at h
    exact absurd h (SetPeriod_ne_too_long c bus _ _)

/-- Witness of C10: 500 µs at 50 Hz. -/
theorem C10_SetOnPeriodDuration_delegates_witness :
    Channels.SetOnPeriodDuration ⟨true, fun _ => 0⟩ (NewChannels 6 50 1)
        ⟨[], fun _ => false, fun _ => 0⟩ 500
      = Channels.SetOnPeriodDurationWithShift ⟨true, fun _ => 0⟩ (NewChannels 6 50 1)
        ⟨[], fun _ => false, fun _ => 0⟩ 0 500 ∧
    ((NewChannels 6 50 1).frequency < 2 ^ 16 →
      ((Channels.SetOnPeriodDuration ⟨true, fun _ => 0⟩ (NewChannels 6 50 1)
          ⟨[], fun _ => false, fun _ => 0⟩ 500).2 = Outcome.error Err.durationTooLong
          ↔ 1000000 < 500 * (NewChannels 6 50 1).frequency) ∧
      (1000000 < 500 * (NewChannels 6 50 1).frequency →
        (Channels.SetOnPeriodDuration ⟨true, fun _ => 0⟩ (NewChannels 6 50 1)
          ⟨[], fun _ => false, fun _ => 0⟩ 500).1 = ⟨[], fun _ => false, fun _ => 0⟩)) :=
  C10_SetOnPeriodDuration_delegates ⟨true, fun _ => 0⟩ (NewChannels 6 50 1)
    ⟨[], fun _ => false, fun _ => 0⟩ 500 (by decide)

/-! ## Accuracy of the fraction numbers -/

/-- A quotient strictly between `k - 1/2` and `k + 1/2` rounds to `k`. -/
theorem rheDiv_eq_of_between (n d k : Nat) (h1 : 2 * n < (2 * k + 1) * d)
    (h2 : 2 * k * d < 2 * n + d) : rheDiv n d = k := by
  have hd : 0 < d := by
    rcases Nat.eq_zero_or_pos d with h0 | h0
    · rw [h0] at h1; omega
    · exact h0
  have e := Nat.div_add_mod n d
  have hr := Nat.mod_lt n hd
  have hk1 : (2 * k + 1) * d = 2 * (d * k) + d := by ring
  have hk2 : 2 * k * d = 2 * (d * k) := by ring
  rw [hk1] at h1
  rw [hk2] at h2
  have hqk : n / d ≤ k := by
    by_contra hc
    have := Nat.mul_le_mul_left d (show k + 1 ≤ n / d by omega)
    rw [Nat.mul_succ] at this
    omega
  have hkq : k ≤ n / d + 1 := by
    by_contra hc
    have := Nat.mul_le_mul_left d (show n / d + 2 ≤ k by omega)
    rw [Nat.mul_add, Nat.mul_two] at this
    omega
  rcases Nat.lt_or_eq_of_le hqk with hlt | heq
  · have hq : n / d + 1 = k := by omega
    have hm : d * k = d * (n / d) + d := by rw [← hq, Nat.mul_succ]
    unfold rheDiv
    split_ifs <;> omega
  · rw [heq] at e
    unfold rheDiv
    rw [heq]
    split_ifs <;> omega

/-- Relative accuracy of rounding to a double with a full 53-bit significand: the result is
within `2 ^ (-53)` of the exact quotient, relatively. -/
theorem roundUnits_rel (n d : Nat) (h : 2 ^ 53 ≤ n / d) (hb : n / d < 2 ^ 4149) :
    2 ^ 53 * (roundUnits n d * d) ≤ (2 ^ 53 + 1) * n
      ∧ (2 ^ 53 - 1) * n ≤ 2 ^ 53 * (roundUnits n d * d) := by
  have hd : 0 < d := by
    rcases Nat.eq_zero_or_pos d with h0 | h0
    · rw [h0, Nat.div_zero] at h; exact absurd h (by decide)
    · exact h0
  obtain ⟨he, -, -⟩ := roundUnits_large n d h hb
  obtain ⟨-, ha, -⟩ := dropBits_spec (n / d) h hb
  generalize dropBits (n / d) = s at he ha
  have hD : 0 < d * 2 ^ s := Nat.mul_pos hd (Nat.two_pow_pos s)
  have hq : 2 ^ 52 * (d * 2 ^ s) ≤ n := by
    rw [Nat.div_div_eq_div_mul] at ha
    exact (Nat.le_div_iff_mul_le hD).mp ha
  obtain ⟨n1, n2⟩ := rheDiv_near n (d * 2 ^ s) hD
  have e : roundUnits n d * d = rheDiv n (d * 2 ^ s) * (d * 2 ^ s) := by
    rw [he]; ring
  rw [e]
  constructor <;> omega

/-- A double below the exact quotient stays below its rounding. -/
theorem roundUnits_ge_of_double_le (n d m e : Nat) (hd : 0 < d) (hle : m * 2 ^ e * d ≤ n)
    (hm : m < 2 ^ 53) (he : 53 + e ≤ 4149) (hb : n / d < 2 ^ 4149) :
    m * 2 ^ e ≤ roundUnits n d := by
  have hb2 : m * 2 ^ e < 2 ^ 4149 := mul_two_pow_lt m e 4149 hm he
  have hx := roundUnits_mono_cross (m * 2 ^ e) 1 n d (by decide) hd
    (by rw [Nat.mul_one]; exact hle) hb
  rw [roundUnits_exact m e hm hb2] at hx
  exact hx

/-! ## FullOn, FullOff, TurnOff, Reset -/

/-- What `writeOnOffValue` does on a group of at most 16383 channels: one `Write` of the address
byte followed by one block per channel, and an error exactly when that `Write` fails. -/
theorem writeOnOffValue_eq (c : Channels) (bus : Bus) (onVal offVal : Nat)
    (hc : c.channelsCount ≤ 16383) :
    c.writeOnOffValue bus onVal offVal =
      ({ bus with log := bus.log ++
          [BusOp.write (expectedBuffer c.addresLowOn c.channelsCount onVal offVal)] },
        if bus.fails bus.log.length then
          Outcome.error (Err.transport "failed to write new state")
        else Outcome.ok) := by
  rw [Channels.writeOnOffValue, onOffBuffer_eq c onVal offVal hc]
  cases hf : bus.fails bus.log.length <;> simp [Bus.Write, hf]

theorem expectedBuffer_fullOn (a n : Nat) :
    expectedBuffer a n fullOnOffValue 0
      = a :: (List.replicate n [0x00, 0x10, 0x00, 0x00]).flatten := rfl

theorem expectedBuffer_fullOff (a n : Nat) :
    expectedBuffer a n 0 fullOnOffValue
      = a :: (List.replicate n [0x00, 0x00, 0x00, 0x10]).flatten := rfl

/-- C11: on a group of `n` channels (`1 ≤ n ≤ 16`) at base address `a`, `FullOn()` issues
exactly one bus write, of `a` followed by `n` copies of `[0x00, 0x10, 0x00, 0x00]`, and
`FullOff()` exactly one bus write, of `a` followed by `n` copies of `[0x00, 0x00, 0x00, 0x10]`;
each returns an error exactly when its write fails, and the value `0x1000` they pass is one that
`SetPeriod` refuses with its range check. -/
theorem C11_FullOn_FullOff (c : Channels) (bus : Bus)
    (hn1 : 1 ≤ c.channelsCount) (hn : c.channelsCount ≤ 16) :
    (c.FullOn bus =
      ({ bus with log := bus.log ++
          [BusOp.write (c.addresLowOn ::
            (List.replicate c.channelsCount [0x00, 0x10, 0x00, 0x00]).flatten)] },
        if bus.fails bus.log.length then
          Outcome.error (Err.transport "failed to write new state")
        else Outcome.ok)) ∧
    (c.FullOff bus =
      ({ bus with log := bus.log ++
          [BusOp.write (c.addresLowOn ::
            (List.replicate c.channelsCount [0x00, 0x00, 0x00, 0x10]).flatten)] },
        if bus.fails bus.log.length then
          Outcome.error (Err.transport "failed to write new state")
        else Outcome.ok)) ∧
    c.SetPeriod bus 0x1000 0 = (bus, Outcome.error Err.onOutOfRange) ∧
    c.SetPeriod bus 0 0x1000 = (bus, Outcome.error Err.offOutOfRange) := by
  refine ⟨?_, ?_, ?_, ?_⟩
  · rw [Channels.FullOn, writeOnOffValue_eq c bus _ _ (by omega), expectedBuffer_fullOn]
  · rw [Channels.FullOff, writeOnOffValue_eq c bus _ _ (by omega), expectedBuffer_fullOff]
  · simp [Channels.SetPeriod, ClockPeriodsFractionsMaxValue]
  · simp [Channels.SetPeriod, ClockPeriodsFractionsMaxValue]

/-- Witness of C11: channels 14 and 15 (base address `0x3E`). -/
theorem C11_FullOn_FullOff_witness :
    (Channels.FullOn (NewChannels 0x3E 50 2) ⟨[], fun _ => false, fun _ => 0⟩ =
      ({ (⟨[], fun _ => false, fun _ => 0⟩ : Bus) with log := [] ++
          [BusOp.write ((NewChannels 0x3E 50 2).addresLowOn ::
            (List.replicate (NewChannels 0x3E 50 2).channelsCount
              [0x00, 0x10, 0x00, 0x00]).flatten)] },
        if (⟨[], fun _ => false, fun _ => 0⟩ : Bus).fails 0 then
          Outcome.error (Err.transport "failed to write new state")
        else Outcome.ok)) ∧
    (Channels.FullOff (NewChannels 0x3E 50 2) ⟨[], fun _ => false, fun _ => 0⟩ =
      ({ (⟨[], fun _ => false, fun _ => 0⟩ : Bus) with log := [] ++
          [BusOp.write ((NewChannels 0x3E 50 2).addresLowOn ::
            (List.replicate (NewChannels 0x3E 50 2).channelsCount
              [0x00, 0x00, 0x00, 0x10]).flatten)] },
        if (⟨[], fun _ => false, fun _ => 0⟩ : Bus).fails 0 then
          Outcome.error (Err.transport "failed to write new state")
        else Outcome.ok)) ∧
    Channels.SetPeriod (NewChannels 0x3E 50 2) ⟨[], fun _ => false, fun _ => 0⟩ 0x1000 0
      = (⟨[], fun _ => false, fun _ => 0⟩, Outcome.error Err.onOutOfRange) ∧
    Channels.SetPeriod (NewChannels 0x3E 50 2) ⟨[], fun _ => false, fun _ => 0⟩ 0 0x1000
      = (⟨[], fun _ => false, fun _ => 0⟩, Outcome.error Err.offOutOfRange) :=
  C11_FullOn_FullOff (NewChannels 0x3E 50 2) ⟨[], fun _ => false, fun _ => 0⟩
    (by decide) (by decide)

/-- C12 (counterexample): the address is a `byte`; for channel index 63 the sum
`63 * 4 + 0x06 = 258` wraps and the group's base register address is 2. -/
theorem C12_counterexample_wrap :
    (PCA9685.GetChannel { frequency := 50 } 63).addresLowOn = 2 ∧
    (PCA9685.GetChannels { frequency := 50 } 63 2).addresLowOn = 2 ∧
    (PCA9685.GetChannel { frequency := 50 } 63).addresLowOn ≠ 63 * 4 + 0x06 := by
  decide

/-- C12 (amended): `GetChannel(index)` and `GetChannels(index, count)` are pure (the bus is
neither an argument nor a result) and return a group whose base register address is
`(index * 4 + 0x06) mod 256`, which is `index * 4 + 0x06` for every index up to 62, whose
frequency is the device's current one and whose channel count is 1, respectively `count`;
`GetAllChannels()` returns the group with base address `0xFA`, channel count 1 and the device's
frequency. -/
theorem C12_channel_groups (p : PCA9685) (index count : Nat) :
    p.GetChannel index
        = { addresLowOn := (index * 4 + 0x06) % 256, frequency := p.frequency,
            channelsCount := 1 } ∧
    p.GetChannels index count
        = { addresLowOn := (index * 4 + 0x06) % 256, frequency := p.frequency,
            channelsCount := count } ∧
    (index ≤ 62 → (p.GetChannel index).addresLowOn = index * 4 + 0x06
      ∧ (p.GetChannels index count).addresLowOn = index * 4 + 0x06) ∧
    p.GetAllChannels
        = { addresLowOn := 0xFA, frequency := p.frequency, channelsCount := 1 } := by
  refine ⟨rfl, rfl, ?_, rfl⟩
  intro h
  have e : (index * 4 + AddressLed1OnLow) % 2 ^ 8 = index * 4 + 0x06 := by
    rw [AddressLed1OnLow]
    exact Nat.mod_eq_of_lt (by omega)
  exact ⟨e, e⟩

/-- C13: `Reset()` issues exactly one bus call, the write of `[0x00, 0x00]`, and returns an
error exactly when that write fails; `NewPCA9685(bus)` issues that same single write, yields a
device whose stored frequency is 0, and reports an error exactly when the write fails. -/
theorem C13_Reset_and_New (p : PCA9685) (bus : Bus) :
    p.Reset bus =
      ((p, { bus with log := bus.log ++ [BusOp.write [0x00, 0x00]] }),
        if bus.fails bus.log.length then Outcome.error (Err.transport "failed to reset device")
        else Outcome.ok) ∧
    NewPCA9685 bus =
      (({ frequency := 0 }, { bus with log := bus.log ++ [BusOp.write [0x00, 0x00]] }),
        if bus.fails bus.log.length then Outcome.error (Err.transport "failed to reset device")
        else Outcome.ok) := by
  constructor
  · rw [PCA9685.Reset]
    cases hf : bus.fails bus.log.length <;> simp [Bus.Write, hf, AddressMode1]
  · rw [NewPCA9685, PCA9685.Reset]
    cases hf : bus.fails bus.log.length <;> simp [Bus.Write, hf, AddressMode1]

/-- C14: `TurnOff()` is `GetAllChannels().FullOff()`: it issues exactly one bus write, of the
five bytes `[0xFA, 0x00, 0x00, 0x00, 0x10]`, returns an error exactly when that write fails, and
leaves the device unchanged. -/
theorem C14_TurnOff (p : PCA9685) (bus : Bus) :
    (p.TurnOff bus).1.2 = (p.GetAllChannels.FullOff bus).1 ∧
    (p.TurnOff bus).2 = (p.GetAllChannels.FullOff bus).2 ∧
    p.TurnOff bus =
      ((p, { bus with log := bus.log ++ [BusOp.write [0xFA, 0x00, 0x00, 0x00, 0x10]] }),
        if bus.fails bus.log.length then
          Outcome.error (Err.transport "failed to write new state")
        else Outcome.ok) := by
  refine ⟨rfl, rfl, ?_⟩
  rw [PCA9685.TurnOff, Channels.FullOff,
    writeOnOffValue_eq p.GetAllChannels bus 0 fullOnOffValue
      (show (1 : Nat) ≤ 16383 by decide)]
  rfl

/-- The buffer `writeOnOffValue` builds depends on the group only through its base address and
channel count. -/
theorem onOffBuffer_congr (c c' : Channels) (x y : Nat)
    (ha : c'.addresLowOn = c.addresLowOn) (hn : c'.channelsCount = c.channelsCount) :
    onOffBuffer c' x y = onOffBuffer c x y := by
  rw [onOffBuffer, onOffBuffer, ha, hn]

/-- With `x` and `y` at most 4095, whenever the buffer is built (as it is on every group of at
most 16383 channels), two calls of `SetPeriod(x, y)` in a row each append to the bus the same
single write; the buffer is built from the base address, the channel count, `x` and `y` alone:
it is the same on any bus state and for any group with the same address and count. -/
theorem SetPeriod_twice_of_buffer (c : Channels) (bus : Bus) (x y : Nat)
    (hx : x ≤ 4095) (hy : y ≤ 4095) :
    (∀ buf, onOffBuffer c x y = some buf →
      (c.SetPeriod bus x y).1.log = bus.log ++ [BusOp.write buf] ∧
      (c.SetPeriod (c.SetPeriod bus x y).1 x y).1.log
        = bus.log ++ [BusOp.write buf, BusOp.write buf]) ∧
    (c.channelsCount ≤ 16383 →
      (c.SetPeriod (c.SetPeriod bus x y).1 x y).1.log
        = bus.log ++ [BusOp.write (expectedBuffer c.addresLowOn c.channelsCount x y),
            BusOp.write (expectedBuffer c.addresLowOn c.channelsCount x y)]) ∧
    (∀ c' : Channels, c'.addresLowOn = c.addresLowOn → c'.channelsCount = c.channelsCount →
      onOffBuffer c' x y = onOffBuffer c x y) := by
  have key : ∀ (b : Bus) (buf : List Nat), onOffBuffer c x y = some buf →
      (c.SetPeriod b x y).1.log = b.log ++ [BusOp.write buf] := by
    intro b buf hb
    rw [SetPeriod_in_range c b x y hx hy, Channels.writeOnOffValue, hb]
    cases hf : b.fails b.log.length <;> simp [Bus.Write, hf]
  refine ⟨?_, ?_, fun c' ha hn => onOffBuffer_congr c c' x y ha hn⟩
  · intro buf hb
    refine ⟨key bus buf hb, ?_⟩
    rw [key _ buf hb, key bus buf hb, List.append_assoc]
    rfl
  · intro hc
    have hb := onOffBuffer_eq c x y hc
    rw [key _ _ hb, key bus _ hb, List.append_assoc]
    rfl

/-- C16 (the code at the failing input): for a group of 16384 channels the `uint16` length
`16384 * 4 + 1` wraps to 1, the buffer holds the address byte only, and the first slice
expression `buf[1:3]` of the loop is out of range: `SetPeriod(0, 0)` panics and writes
nothing. -/
theorem C16_large_count_panics :
    (16384 * channelByteResolution + 1) % 2 ^ 16 = 1 ∧
    putUint16 [6] 1 3 0 = none ∧
    onOffBuffer (PCA9685.GetChannels { frequency := 50 } 0 16384) 0 0 = none ∧
    ((PCA9685.GetChannels { frequency := 50 } 0 16384).SetPeriod
        ⟨[], fun _ => false, fun _ => 0⟩ 0 0).2 = Outcome.panic ∧
    ((PCA9685.GetChannels { frequency := 50 } 0 16384).SetPeriod
        ⟨[], fun _ => false, fun _ => 0⟩ 0 0).1.log = [] := by
  decide!

/-- For every channel count up to 16383 the buffer is built without any out-of-range access
and one write of length `1 + 4 * count` is issued. -/
theorem SetPeriod_safe_of_count_le (c : Channels) (bus : Bus) (x y : Nat)
    (hx : x ≤ 4095) (hy : y ≤ 4095) (hc : c.channelsCount ≤ 16383) :
    (c.SetPeriod bus x y).2 ≠ Outcome.panic ∧
    ∃ buf, (c.SetPeriod bus x y).1.log = bus.log ++ [BusOp.write buf]
      ∧ buf.length = 1 + 4 * c.channelsCount := by
  rw [SetPeriod_in_range c bus x y hx hy, writeOnOffValue_eq c bus x y hc]
  refine ⟨?_, _, rfl, expectedBuffer_length _ _ _ _⟩
  cases bus.fails bus.log.length <;> simp

/-- The log of a `SetFrequency` of a supported frequency whose six bus calls all succeed. -/
theorem SetFrequency_success_log (pf : Platform) (p : PCA9685) (bus : Bus) (hz : Nat)
    (hsup : 3 ≤ specPrescaler hz ∧ specPrescaler hz ≤ 255)
    (hok : ∀ i < 6, bus.fails (bus.log.length + i) = false) :
    (p.SetFrequency pf bus hz).1.2.log = bus.log ++
      frequencySequence (bus.readByte (bus.log.length + 1) % 256) (specPrescaler hz).toNat := by
  obtain ⟨h1, h2⟩ := (specPrescaler_range hz).mp hsup
  rw [SetFrequency_accepted pf p bus hz h1 h2]
  have f0 := hok 0 (by decide)
  have f1 := hok 1 (by decide)
  have f2 := hok 2 (by decide)
  have f3 := hok 3 (by decide)
  have f4 := hok 4 (by decide)
  have f5 := hok 5 (by decide)
  simp only [Nat.add_zero] at f0
  simp only [f0, f1, f2, f3, f4, f5, Bool.false_eq_true, if_false]

/-- C17 (counterexample): when the MODE1 byte read is `0x11` (sleep and all-call set, the
chip's power-on value), a successful `SetFrequency(50)` writes `[0x00, 0x11]` in the restore
step (the fifth call), whose sleep bit `0x10` is set. -/
theorem C17_counterexample_sleep_kept :
    (PCA9685.SetFrequency ⟨true, fun _ => 0⟩ { frequency := 0 }
        ⟨[], fun _ => false, fun _ => 0x11⟩ 50).2 = Outcome.ok ∧
    (PCA9685.SetFrequency ⟨true, fun _ => 0⟩ { frequency := 0 }
        ⟨[], fun _ => false, fun _ => 0x11⟩ 50).1.2.log[4]?
      = some (BusOp.write [0x00, 0x11]) ∧
    0x11 &&& bitMode1Sleep = 0x10 := by
  decide!

/-- The exact prescaler of every frequency from 1526 to 1743 Hz is 3. -/
theorem specPrescaler_top (hz : Nat) (h1 : 1526 ≤ hz) (h2 : hz ≤ 1743) :
    specPrescaler hz = 3 := by
  have a := rheDiv_anti_den 25000000 (4096 * 1526) (4096 * hz) (by decide) (by omega)
  have b := rheDiv_anti_den 25000000 (4096 * hz) (4096 * 1743) (by omega) (by omega)
  have e1 : rheDiv 25000000 (4096 * 1526) = 4 := by decide
  have e2 : rheDiv 25000000 (4096 * 1743) = 4 := by decide
  unfold specPrescaler
  omega

/-- C18: when `4096 * hz` does not overflow `uint` (`hz < 2^52` for 64 bits, `hz < 2^20` for
32 bits), `SetFrequency(hz)` passes the prescaler check if and only if `24 ≤ hz ≤ 1743`; every
frequency from 1527 to 1743 is accepted and programs the prescaler byte 3, the same as
1526 Hz. -/
theorem C18_accepted_range (pf : Platform) (hz : Nat) (hfit : 4096 * hz < 2 ^ pf.uintBits) :
    (prescalerRejected pf.uintBits hz = false ↔ (24 ≤ hz ∧ hz ≤ 1743)) ∧
    (1527 ≤ hz → hz ≤ 1743 →
      prescalerRejected pf.uintBits hz = false ∧
      (prescalerOf pf.uintBits hz).toUint 8 pf.floatToInt = 3 ∧
      (prescalerOf pf.uintBits 1526).toUint 8 pf.floatToInt = 3 ∧
      ∀ (p : PCA9685) (bus : Bus), (∀ i < 6, bus.fails (bus.log.length + i) = false) →
        (p.SetFrequency pf bus hz).1.2.log = bus.log ++
          frequencySequence (bus.readByte (bus.log.length + 1) % 256) 3) := by
  refine ⟨SetFrequency_accepts_iff_of_fits pf hz hfit, fun h1 h2 => ?_⟩
  have hs := specPrescaler_top hz (by omega) h2
  have hs0 := specPrescaler_top 1526 (by decide) (by decide)
  refine ⟨prescalerRejected_supported pf hz (by omega) h2, ?_, ?_, ?_⟩
  · rw [prescaler_byte_supported pf hz (by omega) h2, hs]
    rfl
  · rw [prescaler_byte_supported pf 1526 (by decide) (by decide), hs0]
    rfl
  · intro p bus hok
    have hsup : 3 ≤ specPrescaler hz ∧ specPrescaler hz ≤ 255 := by
      rw [hs]; decide
    rw [SetFrequency_success_log pf p bus hz hsup hok, hs]
    rfl

/-- Witness of C18: 1700 Hz with a 64-bit `uint`. -/
theorem C18_accepted_range_witness :
    (prescalerRejected (⟨true, fun _ => 0⟩ : Platform).uintBits 1700 = false
        ↔ (24 ≤ 1700 ∧ 1700 ≤ 1743)) ∧
    (1527 ≤ 1700 → 1700 ≤ 1743 →
      prescalerRejected (⟨true, fun _ => 0⟩ : Platform).uintBits 1700 = false ∧
      (prescalerOf (⟨true, fun _ => 0⟩ : Platform).uintBits 1700).toUint 8
          (⟨true, fun _ => 0⟩ : Platform).floatToInt = 3 ∧
      (prescalerOf (⟨true, fun _ => 0⟩ : Platform).uintBits 1526).toUint 8
          (⟨true, fun _ => 0⟩ : Platform).floatToInt = 3 ∧
      ∀ (p : PCA9685) (bus : Bus), (∀ i < 6, bus.fails (bus.log.length + i) = false) →
        (p.SetFrequency ⟨true, fun _ => 0⟩ bus 1700).1.2.log = bus.log ++
          frequencySequence (bus.readByte (bus.log.length + 1) % 256) 3) :=
  C18_accepted_range ⟨true, fun _ => 0⟩ 1700 (by decide)

/-- C20: for `count ≥ 1` channels from `index` on with `index + count ≤ 16`, the base address
of `GetChannels(index, count)` is `6 + 4 * index`, computed without 8-bit wrap-around, and the
registers one write covers, from the base address to `base + 4 * count - 1`, lie in
`[0x06, 0x45]`; the write carries, after the address byte, exactly `4 * count` data bytes. -/
theorem C20_GetChannels_register_range (p : PCA9685) (bus : Bus) (index count x y : Nat)
    (hc : 1 ≤ count) (hic : index + count ≤ 16) :
    (p.GetChannels index count).addresLowOn = 6 + 4 * index ∧
    index * 4 + AddressLed1OnLow < 2 ^ 8 ∧
    0x06 ≤ (p.GetChannels index count).addresLowOn ∧
    (p.GetChannels index count).addresLowOn + 4 * count - 1 ≤ 0x45 ∧
    ((p.GetChannels index count).writeOnOffValue bus x y).1.log = bus.log ++
      [BusOp.write (expectedBuffer (6 + 4 * index) count x y)] ∧
    (expectedBuffer (6 + 4 * index) count x y).length = 1 + 4 * count := by
  have e : (p.GetChannels index count).addresLowOn = 6 + 4 * index := by
    show (index * 4 + AddressLed1OnLow) % 2 ^ 8 = 6 + 4 * index
    rw [AddressLed1OnLow, Nat.mod_eq_of_lt (by omega)]
    omega
  have hcnt : (p.GetChannels index count).channelsCount = count := rfl
  refine ⟨e, by rw [AddressLed1OnLow]; omega, by omega, by omega, ?_,
    expectedBuffer_length _ _ _ _⟩
  rw [writeOnOffValue_eq _ bus x y (by rw [hcnt]; omega), e, hcnt]

/-- Witness of C20: the two channels 14 and 15 (as in the servo example). -/
theorem C20_GetChannels_register_range_witness :
    (PCA9685.GetChannels { frequency := 50 } 14 2).addresLowOn = 6 + 4 * 14 ∧
    14 * 4 + AddressLed1OnLow < 2 ^ 8 ∧
    0x06 ≤ (PCA9685.GetChannels { frequency := 50 } 14 2).addresLowOn ∧
    (PCA9685.GetChannels { frequency := 50 } 14 2).addresLowOn + 4 * 2 - 1 ≤ 0x45 ∧
    ((PCA9685.GetChannels { frequency := 50 } 14 2).writeOnOffValue
        ⟨[], fun _ => false, fun _ => 0⟩ 0 102).1.log = [] ++
      [BusOp.write (expectedBuffer (6 + 4 * 14) 2 0 102)] ∧
    (expectedBuffer (6 + 4 * 14) 2 0 102).length = 1 + 4 * 2 :=
  C20_GetChannels_register_range { frequency := 50 } ⟨[], fun _ => false, fun _ => 0⟩ 14 2 0 102
    (by decide) (by decide)

/-! ## Accuracy of the fraction numbers: the three divisions -/

theorem pow_split (a b : Nat) : 2 ^ (a + b) = 2 ^ a * 2 ^ b := pow_add 2 a b

theorem one_eq_512 : F64.one = 512 * 2 ^ 1065 := by
  rw [F64.one, show 1074 = 9 + 1065 from rfl, pow_split]
  exact congrArg (fun t => t * 2 ^ 1065) (by decide : 2 ^ 9 = 512)

/-- Bounds on the period `P ≈ 10^6 / f` in units, for `1 ≤ f < 2^16`: between 15 and `10^6`. -/
theorem period_units_bounds (f : Nat) (hf1 : 1 ≤ f) (hf2 : f < 2 ^ 16) :
    15 * F64.one ≤ roundUnits (1000000 * F64.one) f
      ∧ roundUnits (1000000 * F64.one) f ≤ 1000000 * F64.one
      ∧ 2 ^ 53 ≤ 1000000 * F64.one / f ∧ 1000000 * F64.one / f < 2 ^ 4149 := by
  have hq1hi : 1000000 * F64.one / f < 2 ^ 4149 := by
    refine lt_of_le_of_lt (Nat.div_le_self _ _) ?_
    rw [F64.one]
    exact mul_two_pow_lt 1000000 1074 4149 (by decide) (by decide)
  have hPle := period_units_le f hf1
  have hPge : 15 * 2 ^ 1074 ≤ roundUnits (1000000 * F64.one) f := by
    refine roundUnits_ge_of_double_le _ _ 15 1074 hf1 ?_ (by decide) (by decide) hq1hi
    rw [F64.one, Nat.mul_right_comm]
    exact Nat.mul_le_mul_right _ (by omega)
  rw [← F64.one] at hPle hPge
  refine ⟨hPge, hPle, ?_, hq1hi⟩
  rw [Nat.le_div_iff_mul_le hf1]
  have h1 : f * 2 ^ 53 < 2 ^ 1074 :=
    mul_two_pow_lt f 53 1074 (lt_trans hf2 (by decide)) (by decide)
  rw [← F64.one] at h1
  have h2 : 2 ^ 53 * f = f * 2 ^ 53 := Nat.mul_comm _ _
  omega

/-- Bounds on the fraction duration `D ≈ P / 4095` in units: between `2^(-9)` and 245. -/
theorem fraction_duration_bounds (P : Nat) (h1 : 15 * F64.one ≤ P)
    (h2 : P ≤ 1000000 * F64.one) :
    2 ^ 1065 ≤ roundUnits P 4095 ∧ roundUnits P 4095 ≤ 245 * F64.one
      ∧ 2 ^ 53 ≤ P / 4095 ∧ P / 4095 < 2 ^ 4149 := by
  have hq2hi : P / 4095 < 2 ^ 4149 := by
    refine lt_of_le_of_lt (Nat.div_le_self _ _) (lt_of_le_of_lt h2 ?_)
    rw [F64.one]
    exact mul_two_pow_lt 1000000 1074 4149 (by decide) (by decide)
  have hDle : roundUnits P 4095 ≤ 245 * 2 ^ 1074 := by
    refine roundUnits_le_of_le_double _ _ 245 1074 (by decide) ?_ (by decide) (by decide)
    rw [← F64.one]
    omega
  have hDge : 1 * 2 ^ 1065 ≤ roundUnits P 4095 := by
    refine roundUnits_ge_of_double_le _ _ 1 1065 (by decide) ?_ (by decide) (by decide) hq2hi
    rw [one_eq_512] at h1
    generalize (2 : Nat) ^ 1065 = u at h1 ⊢
    omega
  rw [← F64.one] at hDle
  rw [Nat.one_mul] at hDge
  refine ⟨hDge, hDle, ?_, hq2hi⟩
  rw [Nat.le_div_iff_mul_le (by decide)]
  have h3 : 4095 * 2 ^ 53 < 2 ^ 1074 := mul_two_pow_lt 4095 53 1074 (by decide) (by decide)
  rw [← F64.one] at h3
  omega

theorem sq_units (x : Nat) : x * F64.one * F64.one = x * 2 ^ 2148 := by
  rw [F64.one, Nat.mul_assoc, ← pow_split]

/-- Bounds on the quotient `W ≈ x / D` in units, for a 16-bit `x`. -/
theorem quotient_bounds (D x : Nat) (hD1 : 2 ^ 1065 ≤ D) (hD2 : D ≤ 245 * F64.one)
    (hx : x < 2 ^ 16) :
    roundUnits (x * F64.one * F64.one) D < F64.overflowUnits
      ∧ x * F64.one * F64.one / D < 2 ^ 4149
      ∧ (1 ≤ x → 2 ^ 53 ≤ x * F64.one * F64.one / D) := by
  have hDpos : 0 < D := lt_of_lt_of_le (Nat.two_pow_pos 1065) hD1
  have hx53 : x < 2 ^ 53 := lt_trans hx (by decide)
  have hsq : x * F64.one * F64.one < 2 ^ 2164 := by
    rw [sq_units]
    exact lt_of_lt_of_le (Nat.mul_lt_mul_of_pos_right hx (Nat.two_pow_pos _))
      (le_of_eq (pow_split 16 2148).symm)
  refine ⟨?_, ?_, ?_⟩
  · have hle : x * F64.one * F64.one ≤ 1 * 2 ^ 1099 * D := by
      rw [Nat.one_mul]
      refine le_trans (le_of_lt hsq) ?_
      rw [show 2164 = 1099 + 1065 from rfl, pow_split]
      exact Nat.mul_le_mul_left _ hD1
    have h := roundUnits_le_of_le_double _ D 1 1099 hDpos hle (by decide) (by decide)
    rw [Nat.one_mul] at h
    refine lt_of_le_of_lt h ?_
    rw [F64.overflowUnits]
    exact Nat.pow_lt_pow_right (by decide) (by decide)
  · refine lt_of_le_of_lt (Nat.div_le_self _ _) (lt_trans hsq ?_)
    exact Nat.pow_lt_pow_right (by decide) (by decide)
  · intro hx1
    rw [Nat.le_div_iff_mul_le hDpos]
    have h61 : 245 * 2 ^ 53 < 2 ^ 1074 := mul_two_pow_lt 245 53 1074 (by decide) (by decide)
    rw [← F64.one] at h61
    calc 2 ^ 53 * D ≤ 2 ^ 53 * (245 * F64.one) := Nat.mul_le_mul_left _ hD2
      _ = 245 * 2 ^ 53 * F64.one := by ring
      _ ≤ F64.one * F64.one := Nat.mul_le_mul_right _ (le_of_lt h61)
      _ = 1 * F64.one * F64.one := by rw [Nat.one_mul]
      _ ≤ x * F64.one * F64.one :=
        Nat.mul_le_mul_right _ (Nat.mul_le_mul_right _ hx1)

/-- The `float64` computation of a fraction number at a frequency `1 ≤ f < 2^16`, for a 16-bit
number of microseconds: `RoundToEven(float64(us) / periodFractionDuration)` is the integer
`rheDiv (fractionUnits f us) one`. -/
theorem fraction_float (c : Channels) (x : Nat) (hf1 : 1 ≤ c.frequency)
    (hf2 : c.frequency < 2 ^ 16) (hx : x < 2 ^ 16) :
    F64.RoundToEven (F64.div (F64.ofNat x)
        (F64.div (periodDurationOf c) (F64.ofNat ClockPeriodsFractionsMaxValue)))
      = F64.fin ((rheDiv (fractionUnits c.frequency x) F64.one * F64.one : Nat) : Int) := by
  have hone := F64.one_pos
  obtain ⟨hP1, hP2, -, -⟩ := period_units_bounds c.frequency hf1 hf2
  obtain ⟨hD1, hD2, -, -⟩ := fraction_duration_bounds _ hP1 hP2
  obtain ⟨hW, -, -⟩ := quotient_bounds _ x hD1 hD2 hx
  have hDpos : 0 < roundUnits (roundUnits (1000000 * F64.one) c.frequency) 4095 :=
    lt_of_lt_of_le (Nat.two_pow_pos 1065) hD1
  have hDlt : roundUnits (roundUnits (1000000 * F64.one) c.frequency) 4095
      < F64.overflowUnits := by
    have h1 := F64.two_one_le_overflow
    have h2 := million_units_bound
    rw [← F64.one] at h2
    omega
  rw [periodDurationOf_pos c hf1 hf2, ClockPeriodsFractionsMaxValue,
    F64.ofNat_small 4095 (by decide), F64.div_fin_pos _ _ (Nat.mul_pos (by decide) hone),
    F64.round, roundUnits_mul_right _ 4095 F64.one hone, if_neg (Nat.not_le.mpr hDlt),
    F64.ofNat_small x (lt_trans hx (by decide))]
  simp only [Bool.false_eq_true, if_false]
  rw [F64.div_fin_pos _ _ hDpos, F64.round_of_lt _ _ _ hW]
  simp only [Bool.false_eq_true, if_false]
  rw [F64.RoundToEven_nonneg]
  rfl

/-! ## Accuracy of the fraction numbers: the error of three roundings -/

theorem chain_upper (e A P D W f X : Nat)
    (h1 : e * A ≤ (e + 1) * (P * f)) (h2 : e * P ≤ (e + 1) * (D * 4095))
    (h3 : (e + 1) * (W * D) ≤ (e + 2) * X) :
    W * (e * e) * A ≤ (e + 1) * (e + 2) * (4095 * f * X) :=
  calc W * (e * e) * A = W * e * (e * A) := by ring
    _ ≤ W * e * ((e + 1) * (P * f)) := Nat.mul_le_mul_left _ h1
    _ = W * (e + 1) * f * (e * P) := by ring
    _ ≤ W * (e + 1) * f * ((e + 1) * (D * 4095)) := Nat.mul_le_mul_left _ h2
    _ = (e + 1) * 4095 * f * ((e + 1) * (W * D)) := by ring
    _ ≤ (e + 1) * 4095 * f * ((e + 2) * X) := Nat.mul_le_mul_left _ h3
    _ = (e + 1) * (e + 2) * (4095 * f * X) := by ring

theorem chain_lower (e A P D W f X : Nat)
    (h1 : (e + 1) * (P * f) ≤ (e + 2) * A) (h2 : (e + 1) * (D * 4095) ≤ (e + 2) * P)
    (h3 : e * X ≤ (e + 1) * (W * D)) :
    e * (e + 1) * (4095 * f * X) ≤ W * ((e + 2) * (e + 2)) * A :=
  calc e * (e + 1) * (4095 * f * X) = (e + 1) * 4095 * f * (e * X) := by ring
    _ ≤ (e + 1) * 4095 * f * ((e + 1) * (W * D)) := Nat.mul_le_mul_left _ h3
    _ = W * (e + 1) * f * ((e + 1) * (D * 4095)) := by ring
    _ ≤ W * (e + 1) * f * ((e + 2) * P) := Nat.mul_le_mul_left _ h2
    _ = W * (e + 2) * ((e + 1) * (P * f)) := by ring
    _ ≤ W * (e + 2) * ((e + 2) * A) := Nat.mul_le_mul_left _ h1
    _ = W * ((e + 2) * (e + 2)) * A := by ring

/-- The quotient computed in `float64` is within a relative `3 * 2 ^ (-53)`, roughly, of the
exact `x * 4095 * f / 10^6`: with `e = 2^53 - 1`,
`e (e + 1) v ≤ W (e + 2)^2` and `W e^2 ≤ (e + 1) (e + 2) v` for `v` the exact value in units. -/
theorem fraction_accuracy (f x : Nat) (hf1 : 1 ≤ f) (hf2 : f < 2 ^ 16) (hx : x < 2 ^ 16) :
    fractionUnits f x * (9007199254740991 * 9007199254740991) * 1000000
        ≤ 9007199254740992 * 9007199254740993 * (x * 4095 * f * F64.one)
      ∧ 9007199254740991 * 9007199254740992 * (x * 4095 * f * F64.one)
        ≤ fractionUnits f x * (9007199254740993 * 9007199254740993) * 1000000 := by
  have hone := F64.one_pos
  obtain ⟨hP1, hP2, hP3, hP4⟩ := period_units_bounds f hf1 hf2
  obtain ⟨hD1, hD2, hD3, hD4⟩ := fraction_duration_bounds _ hP1 hP2
  obtain ⟨-, hW2, hW3⟩ := quotient_bounds _ x hD1 hD2 hx
  rcases Nat.eq_zero_or_pos x with h0 | hx1
  · subst h0
    have hz : fractionUnits f 0 = 0 := by
      have hDpos : 0 < roundUnits (roundUnits (1000000 * F64.one) f) 4095 :=
        lt_of_lt_of_le (Nat.two_pow_pos 1065) hD1
      rw [fractionUnits, Nat.zero_mul, Nat.zero_mul,
        roundUnits_small _ _ (by rw [Nat.zero_div]; exact Nat.two_pow_pos 53)]
      have := rheDiv_mul_self 0 _ hDpos
      rwa [Nat.zero_mul] at this
    rw [hz]
    simp
  · have r1 := roundUnits_rel (1000000 * F64.one) f hP3 hP4
    have r2 := roundUnits_rel (roundUnits (1000000 * F64.one) f) 4095 hD3 hD4
    have r3 := roundUnits_rel (x * F64.one * F64.one) _ (hW3 hx1) hW2
    rw [← fractionUnits] at r3
    generalize fractionUnits f x = W at r3 ⊢
    generalize roundUnits (roundUnits (1000000 * F64.one) f) 4095 = D at r2 r3
    generalize roundUnits (1000000 * F64.one) f = P at r1 r2
    have e53 : (2 : Nat) ^ 53 = 9007199254740991 + 1 := by decide
    have e53b : (2 : Nat) ^ 53 + 1 = 9007199254740991 + 2 := by decide
    have e53c : (2 : Nat) ^ 53 - 1 = 9007199254740991 := by decide
    rw [e53b, e53c, e53] at r1 r2 r3
    have hU := chain_upper 9007199254740991 (1000000 * F64.one) P D W f
      (x * F64.one * F64.one) r1.2 r2.2 r3.1
    have hL := chain_lower 9007199254740991 (1000000 * F64.one) P D W f
      (x * F64.one * F64.one) r1.1 r2.1 r3.2
    have eA : ∀ t : Nat, t * (1000000 * F64.one) = t * 1000000 * F64.one := fun t => by ring
    have eX : ∀ t : Nat, t * (4095 * f * (x * F64.one * F64.one))
        = t * (x * 4095 * f * F64.one) * F64.one := fun t => by ring
    rw [eA, eX] at hU hL
    exact ⟨Nat.le_of_mul_le_mul_right hU hone, Nat.le_of_mul_le_mul_right hL hone⟩

/-- A quotient that is not half-way between two integers lies strictly within a half of its
rounding. -/
theorem rheDiv_between_of_not_tie (n d : Nat) (hd : 0 < d) (hnt : 2 * (n % d) ≠ d) :
    2 * n < (2 * rheDiv n d + 1) * d ∧ 2 * rheDiv n d * d < 2 * n + d := by
  have e := Nat.div_add_mod n d
  have hr := Nat.mod_lt n hd
  have hm1 : ∀ k : Nat, (2 * k + 1) * d = 2 * (d * k) + d := fun k => by ring
  have hm2 : ∀ k : Nat, 2 * k * d = 2 * (d * k) := fun k => by ring
  have hm3 : d * (n / d + 1) = d * (n / d) + d := by ring
  rw [hm1, hm2]
  unfold rheDiv
  split_ifs <;> omega

theorem rheDiv_le_of_lt (n d k : Nat) (h : 2 * n < (2 * k + 1) * d) : rheDiv n d ≤ k := by
  have hd : 0 < d := by
    rcases Nat.eq_zero_or_pos d with h0 | h0
    · rw [h0] at h; omega
    · exact h0
  have e := Nat.div_add_mod n d
  have hr := Nat.mod_lt n hd
  have hk1 : (2 * k + 1) * d = 2 * (d * k) + d := by ring
  rw [hk1] at h
  have hqk : n / d ≤ k := by
    by_contra hc
    have := Nat.mul_le_mul_left d (show k + 1 ≤ n / d by omega)
    rw [Nat.mul_succ] at this
    omega
  rcases Nat.lt_or_eq_of_le hqk with hlt | heq
  · have := rheDiv_le_div_succ n d
    omega
  · rw [heq] at e
    unfold rheDiv
    rw [heq]
    split_ifs <;> omega

/-- Away from exact ties the `float64` quotient rounds to the same integer as the exact value
`x * 4095 * f / 10^6`. -/
theorem fraction_round_eq (f x : Nat) (hf1 : 1 ≤ f) (hf2 : f < 2 ^ 16) (hx : x < 2 ^ 16)
    (hnt : 2 * ((x * 4095 * f) % 1000000) ≠ 1000000) :
    rheDiv (fractionUnits f x) F64.one = specFraction f x := by
  have hone := F64.one_pos
  obtain ⟨hU, hL⟩ := fraction_accuracy f x hf1 hf2 hx
  obtain ⟨ha, hb⟩ := rheDiv_between_of_not_tie (x * 4095 * f) 1000000 (by decide) hnt
  have hN : x * 4095 * f < 2 ^ 16 * 4095 * 2 ^ 16 :=
    calc x * 4095 * f ≤ x * 4095 * 2 ^ 16 := Nat.mul_le_mul_left _ (le_of_lt hf2)
      _ < 2 ^ 16 * 4095 * 2 ^ 16 :=
        Nat.mul_lt_mul_of_pos_right (Nat.mul_lt_mul_of_pos_right hx (by decide)) (by decide)
  rw [specFraction]
  generalize fractionUnits f x = W at hU hL ⊢
  generalize x * 4095 * f = N at hU hL ha hb hN ⊢
  generalize rheDiv N 1000000 = k at ha hb ⊢
  -- the same facts, in units
  have hk : k ≤ 2 ^ 26 := by omega
  have hko : k * F64.one ≤ 2 ^ 26 * F64.one := Nat.mul_le_mul_right _ hk
  have ha' : (2 * N + 1) * F64.one ≤ (2 * k + 1) * 1000000 * F64.one :=
    Nat.mul_le_mul_right _ ha
  have hb' : (2 * k * 1000000 + 1) * F64.one ≤ (2 * N + 1000000) * F64.one :=
    Nat.mul_le_mul_right _ hb
  have e1 : (2 * N + 1) * F64.one = 2 * (N * F64.one) + F64.one := by ring
  have e2 : (2 * k + 1) * 1000000 * F64.one = 2000000 * (k * F64.one) + 1000000 * F64.one := by
    ring
  have e3 : (2 * k * 1000000 + 1) * F64.one = 2000000 * (k * F64.one) + F64.one := by ring
  have e4 : (2 * N + 1000000) * F64.one = 2 * (N * F64.one) + 1000000 * F64.one := by ring
  rw [e1, e2] at ha'
  rw [e3, e4] at hb'
  refine rheDiv_eq_of_between W F64.one k ?_ ?_
  · rw [show (2 * k + 1) * F64.one = 2 * (k * F64.one) + F64.one by ring]
    omega
  · rw [show 2 * k * F64.one = 2 * (k * F64.one) by ring]
    omega

/-- Whenever the exact value `x * 4095 * f / 10^6` is at most 4095, so is the rounded `float64`
quotient, ties included. -/
theorem fraction_round_le (f x : Nat) (hf1 : 1 ≤ f) (hf2 : f < 2 ^ 16) (hx : x < 2 ^ 16)
    (hfit : x * f ≤ 1000000) : rheDiv (fractionUnits f x) F64.one ≤ 4095 := by
  have hone := F64.one_pos
  obtain ⟨hU, -⟩ := fraction_accuracy f x hf1 hf2 hx
  have hN : x * 4095 * f * F64.one ≤ 4095000000 * F64.one := by
    refine Nat.mul_le_mul_right _ ?_
    rw [Nat.mul_right_comm]
    omega
  generalize fractionUnits f x = W at hU ⊢
  generalize x * 4095 * f * F64.one = No at hU hN
  refine rheDiv_le_of_lt W F64.one 4095 ?_
  omega

/-- The rounded `float64` quotient grows with the number of microseconds. -/
theorem fraction_round_mono (f x1 x2 : Nat) (hf1 : 1 ≤ f) (hf2 : f < 2 ^ 16)
    (h12 : x1 ≤ x2) (hx : x2 < 2 ^ 16) :
    rheDiv (fractionUnits f x1) F64.one ≤ rheDiv (fractionUnits f x2) F64.one := by
  obtain ⟨hP1, hP2, -, -⟩ := period_units_bounds f hf1 hf2
  obtain ⟨hD1, hD2, -, -⟩ := fraction_duration_bounds _ hP1 hP2
  obtain ⟨-, hW2, -⟩ := quotient_bounds _ x2 hD1 hD2 hx
  refine rheDiv_mono _ _ _ (roundUnits_mono _ _ _ ?_ hW2)
  exact Nat.mul_le_mul_right _ (Nat.mul_le_mul_right _ h12)

/-! ## The duration setters and the exact fractions -/

/-- The fraction number the code computes, at a frequency `1 ≤ f < 2^16` and for a 16-bit
number of microseconds, when it fits in a `uint16`. -/
theorem fractionNumber_eq (pf : Platform) (c : Channels) (x : Nat) (hf1 : 1 ≤ c.frequency)
    (hf2 : c.frequency < 2 ^ 16) (hx : x < 2 ^ 16)
    (hr : rheDiv (fractionUnits c.frequency x) F64.one < 2 ^ 16) :
    fractionNumber pf c x = rheDiv (fractionUnits c.frequency x) F64.one := by
  rw [fractionNumber, fraction_float c x hf1 hf2 hx, Nat.cast_mul,
    F64.toUint_units 16 _ _ (Int.ofNat_nonneg _) (by exact_mod_cast hr)]
  rfl

theorem fractionNumber_le (pf : Platform) (c : Channels) (x : Nat) (hf1 : 1 ≤ c.frequency)
    (hf2 : c.frequency < 2 ^ 16) (hx : x < 2 ^ 16) (hfit : x * c.frequency ≤ 1000000) :
    fractionNumber pf c x ≤ 4095 := by
  have h := fraction_round_le c.frequency x hf1 hf2 hx hfit
  rw [fractionNumber_eq pf c x hf1 hf2 hx (by omega)]
  exact h

theorem fractionNumber_spec (pf : Platform) (c : Channels) (x : Nat) (hf1 : 1 ≤ c.frequency)
    (hf2 : c.frequency < 2 ^ 16) (hx : x < 2 ^ 16) (hfit : x * c.frequency ≤ 1000000)
    (hnt : 2 * ((x * 4095 * c.frequency) % 1000000) ≠ 1000000) :
    fractionNumber pf c x = specFraction c.frequency x := by
  have h := fraction_round_le c.frequency x hf1 hf2 hx hfit
  rw [fractionNumber_eq pf c x hf1 hf2 hx (by omega)]
  exact fraction_round_eq c.frequency x hf1 hf2 hx hnt

/-- `SetOnPeriodDuration` gives what `SetOnPeriodDurationWithShift` gives with shift 0. -/
theorem SetOnPeriodDuration_eq (pf : Platform) (c : Channels) (bus : Bus) (us : Nat)
    (hus : us < 2 ^ 16) :
    c.SetOnPeriodDuration pf bus us = c.SetOnPeriodDurationWithShift pf bus 0 us := by
  have hsum : (0 + us) % 2 ^ 16 = us := by
    rw [Nat.zero_add, Nat.mod_eq_of_lt hus]
  rw [Channels.SetOnPeriodDuration]
  by_cases hc : (periodDurationOf c).lt (F64.ofNat us) = true
  · rw [if_pos hc, Channels.SetOnPeriodDurationWithShift, hsum, if_pos hc]
  · rw [if_neg hc]

/-- C9 (amended): at a frequency `1 ≤ f` (16 bits), for `shift + duration ≤ 65535` not
exceeding the period `10^6 / f`, `SetOnPeriodDurationWithShift(shift, duration)` is
`SetPeriod(on, off)` on the fraction numbers computed in `float64`; `on` equals
`round_half_even(shift * 4095 * f / 10^6)` whenever that quotient is not half-way between two
integers, and likewise `off` for `shift + duration`. At 50 Hz, `SetOnPeriodDuration(500)` is
`SetPeriod(0, 102)` and `SetOnPeriodDuration(21000)` is refused as too long. -/
theorem C9_duration_fractions (pf : Platform) (c : Channels) (bus : Bus) (shift dur : Nat)
    (hf1 : 1 ≤ c.frequency) (hf2 : c.frequency < 2 ^ 16) (hsum : shift + dur < 2 ^ 16)
    (hfit : (shift + dur) * c.frequency ≤ 1000000) :
    c.SetOnPeriodDurationWithShift pf bus shift dur
        = c.SetPeriod bus (fractionNumber pf c shift) (fractionNumber pf c (shift + dur)) ∧
    (2 * ((shift * 4095 * c.frequency) % 1000000) ≠ 1000000 →
      fractionNumber pf c shift = specFraction c.frequency shift) ∧
    (2 * (((shift + dur) * 4095 * c.frequency) % 1000000) ≠ 1000000 →
      fractionNumber pf c (shift + dur) = specFraction c.frequency (shift + dur)) ∧
    (c.frequency = 50 →
      c.SetOnPeriodDuration pf bus 500 = c.SetPeriod bus 0 102 ∧
      c.SetOnPeriodDuration pf bus 21000 = (bus, Outcome.error Err.durationTooLong)) := by
  have hsf : shift * c.frequency ≤ 1000000 :=
    le_trans (Nat.mul_le_mul_right _ (Nat.le_add_right shift dur)) hfit
  refine ⟨SetOnPeriodDurationWithShift_fits pf c bus shift dur hf2 hsum hfit,
    fun h => fractionNumber_spec pf c shift hf1 hf2 (by omega) hsf h,
    fun h => fractionNumber_spec pf c (shift + dur) hf1 hf2 hsum hfit h, ?_⟩
  intro h50
  have e0 : fractionNumber pf c 0 = 0 := by
    rw [fractionNumber_spec pf c 0 hf1 hf2 (by decide) (by omega) (by rw [h50]; decide), h50]
    decide
  have e500 : fractionNumber pf c 500 = 102 := by
    rw [fractionNumber_spec pf c 500 hf1 hf2 (by decide) (by rw [h50]; decide)
      (by rw [h50]; decide), h50]
    decide
  constructor
  · rw [SetOnPeriodDuration_eq pf c bus 500 (by decide),
      SetOnPeriodDurationWithShift_fits pf c bus 0 500 hf2 (by decide) (by rw [h50]; decide),
      e0, Nat.zero_add, e500]
  · rw [SetOnPeriodDuration_eq pf c bus 21000 (by decide)]
    exact SetOnPeriodDurationWithShift_too_long pf c bus 0 21000 hf2 (by decide)
      (by rw [h50]; decide)

/-- Witness of C9 (amended): 50 Hz, shift 500 µs, duration 2000 µs (the servo example). -/
theorem C9_duration_fractions_witness :
    Channels.SetOnPeriodDurationWithShift ⟨true, fun _ => 0⟩ (NewChannels 0x3E 50 2)
        ⟨[], fun _ => false, fun _ => 0⟩ 500 2000
        = Channels.SetPeriod (NewChannels 0x3E 50 2) ⟨[], fun _ => false, fun _ => 0⟩
          (fractionNumber ⟨true, fun _ => 0⟩ (NewChannels 0x3E 50 2) 500)
          (fractionNumber ⟨true, fun _ => 0⟩ (NewChannels 0x3E 50 2) (500 + 2000)) ∧
    (2 * ((500 * 4095 * (NewChannels 0x3E 50 2).frequency) % 1000000) ≠ 1000000 →
      fractionNumber ⟨true, fun _ => 0⟩ (NewChannels 0x3E 50 2) 500
        = specFraction (NewChannels 0x3E 50 2).frequency 500) ∧
    (2 * (((500 + 2000) * 4095 * (NewChannels 0x3E 50 2).frequency) % 1000000) ≠ 1000000 →
      fractionNumber ⟨true, fun _ => 0⟩ (NewChannels 0x3E 50 2) (500 + 2000)
        = specFraction (NewChannels 0x3E 50 2).frequency (500 + 2000)) ∧
    ((NewChannels 0x3E 50 2).frequency = 50 →
      Channels.SetOnPeriodDuration ⟨true, fun _ => 0⟩ (NewChannels 0x3E 50 2)
          ⟨[], fun _ => false, fun _ => 0⟩ 500
        = Channels.SetPeriod (NewChannels 0x3E 50 2) ⟨[], fun _ => false, fun _ => 0⟩ 0 102 ∧
      Channels.SetOnPeriodDuration ⟨true, fun _ => 0⟩ (NewChannels 0x3E 50 2)
          ⟨[], fun _ => false, fun _ => 0⟩ 21000
        = (⟨[], fun _ => false, fun _ => 0⟩, Outcome.error Err.durationTooLong)) :=
  C9_duration_fractions ⟨true, fun _ => 0⟩ (NewChannels 0x3E 50 2)
    ⟨[], fun _ => false, fun _ => 0⟩ 500 2000 (by decide) (by decide) (by decide) (by decide)

/-- At a frequency `1 ≤ f` (16 bits), for `shift + duration ≤ 65535` not exceeding the period
`10^6 / f`, the fractions `SetOnPeriodDurationWithShift` computes satisfy `on ≤ off ≤ 4095`; both
range checks of the delegated `SetPeriod` pass, so the call is `writeOnOffValue` itself, and it
returns an error only if that bus write was issued and failed. -/
theorem fractions_in_range (pf : Platform) (c : Channels) (bus : Bus) (shift dur : Nat)
    (hf1 : 1 ≤ c.frequency) (hf2 : c.frequency < 2 ^ 16) (hsum : shift + dur < 2 ^ 16)
    (hfit : (shift + dur) * c.frequency ≤ 1000000) :
    fractionNumber pf c shift ≤ fractionNumber pf c (shift + dur) ∧
    fractionNumber pf c (shift + dur) ≤ 4095 ∧
    c.SetOnPeriodDurationWithShift pf bus shift dur
      = c.writeOnOffValue bus (fractionNumber pf c shift) (fractionNumber pf c (shift + dur)) ∧
    (∀ e, (c.SetOnPeriodDurationWithShift pf bus shift dur).2 = Outcome.error e →
      e = Err.transport "failed to write new state" ∧ bus.fails bus.log.length = true ∧
      ∃ buf, (c.SetOnPeriodDurationWithShift pf bus shift dur).1.log
        = bus.log ++ [BusOp.write buf]) := by
  have hsf : shift * c.frequency ≤ 1000000 :=
    le_trans (Nat.mul_le_mul_right _ (Nat.le_add_right shift dur)) hfit
  have hoff := fraction_round_le c.frequency (shift + dur) hf1 hf2 hsum hfit
  have hon := fraction_round_le c.frequency shift hf1 hf2 (by omega) hsf
  have hmono := fraction_round_mono c.frequency shift (shift + dur) hf1 hf2
    (Nat.le_add_right _ _) hsum
  have e1 := fractionNumber_eq pf c shift hf1 hf2 (by omega) (by omega)
  have e2 := fractionNumber_eq pf c (shift + dur) hf1 hf2 hsum (by omega)
  have hcall : c.SetOnPeriodDurationWithShift pf bus shift dur
      = c.writeOnOffValue bus (fractionNumber pf c shift)
          (fractionNumber pf c (shift + dur)) := by
    rw [SetOnPeriodDurationWithShift_fits pf c bus shift dur hf2 hsum hfit,
      SetPeriod_in_range c bus _ _ (by omega) (by omega)]
  refine ⟨by omega, by omega, hcall, ?_⟩
  intro e he
  rw [hcall] at he ⊢
  rw [Channels.writeOnOffValue] at he ⊢
  cases hb : onOffBuffer c (fractionNumber pf c shift) (fractionNumber pf c (shift + dur)) with
  | none => rw [hb] at he; simp at he
  | some buf =>
    rw [hb] at he
    cases hf : bus.fails bus.log.length with
    | false => simp [Bus.Write, hf] at he
    | true =>
      simp only [Bus.Write, hf, if_true] at he ⊢
      refine ⟨?_, trivial, buf, rfl⟩
      injection he with he
      exact he.symm

/-! ## Groups of 16384 channels and more: the buffer length wraps -/

/-- What `SetFrequency` does once the prescaler check has passed, for any frequency (wrapped
ones included), spelled out call by call; `v` is the byte `byte(prescaler)`. -/
theorem SetFrequency_unfold (pf : Platform) (p : PCA9685) (bus : Bus) (hz : Nat)
    (hrej : prescalerRejected pf.uintBits hz = false) :
    p.SetFrequency pf bus hz =
      (let n := bus.log.length
       let m := bus.readByte (n + 1) % 256
       let v := (prescalerOf pf.uintBits hz).toUint 8 pf.floatToInt
       let ops := frequencySequence m v
       if bus.fails n then
         ((p, { bus with log := bus.log ++ ops.take 1 }),
           Outcome.error (Err.transport "failed to set address for read"))
       else if bus.fails (n + 1) then
         ((p, { bus with log := bus.log ++ ops.take 2 }),
           Outcome.error (Err.transport "failed to read MODE1 register"))
       else if bus.fails (n + 2) then
         ((p, { bus with log := bus.log ++ ops.take 3 }),
           Outcome.error (Err.transport "failed to put device in sleep mode"))
       else if bus.fails (n + 3) then
         ((p, { bus with log := bus.log ++ ops.take 4 }),
           Outcome.error (Err.transport "failed to change prescaler value"))
       else if bus.fails (n + 4) then
         ((p, { bus with log := bus.log ++ ops.take 5 }),
           Outcome.error (Err.transport "failed to restore MODE1 register"))
       else if bus.fails (n + 5) then
         ((p, { bus with log := bus.log ++ ops }),
           Outcome.error (Err.transport "failed to put device in restart mode"))
       else (({ frequency := hz % 2 ^ 16 }, { bus with log := bus.log ++ ops }),
         Outcome.ok)) := by
  unfold PCA9685.SetFrequency
  rw [hrej]
  generalize (prescalerOf pf.uintBits hz).toUint 8 pf.floatToInt = v
  simp only [Bus.Write, Bus.Read, restart_bits, frequencySequence, AddressMode1,
    AddressPrescale, bitMode1Sleep, List.length_append, List.length_singleton,
    List.append_assoc, List.singleton_append, List.cons_append, List.nil_append,
    List.length_cons, List.length_nil, Bool.false_eq_true, if_false, List.take,
    Nat.add_assoc, Nat.reduceAdd]

/-- The log of any `SetFrequency` that returns `nil`: the six calls of the sequence, with the
MODE1 byte as read and the prescaler byte the code computed. -/
theorem SetFrequency_ok_log (pf : Platform) (p : PCA9685) (bus : Bus) (hz : Nat)
    (hok : (p.SetFrequency pf bus hz).2 = Outcome.ok) :
    (p.SetFrequency pf bus hz).1.2.log = bus.log ++
      frequencySequence (bus.readByte (bus.log.length + 1) % 256)
        ((prescalerOf pf.uintBits hz).toUint 8 pf.floatToInt) := by
  cases hrej : prescalerRejected pf.uintBits hz with
  | true =>
    rw [PCA9685.SetFrequency, if_pos hrej] at hok
    exact Outcome.noConfusion hok
  | false =>
    rw [SetFrequency_unfold pf p bus hz hrej] at hok ⊢
    generalize (prescalerOf pf.uintBits hz).toUint 8 pf.floatToInt = v at hok ⊢
    by_cases f0 : bus.fails bus.log.length = true
    · simp [f0] at hok
    by_cases f1 : bus.fails (bus.log.length + 1) = true
    · simp [f0, f1] at hok
    by_cases f2 : bus.fails (bus.log.length + 2) = true
    · simp [f0, f1, f2] at hok
    by_cases f3 : bus.fails (bus.log.length + 3) = true
    · simp [f0, f1, f2, f3] at hok
    by_cases f4 : bus.fails (bus.log.length + 4) = true
    · simp [f0, f1, f2, f3, f4] at hok
    by_cases f5 : bus.fails (bus.log.length + 5) = true
    · simp [f0, f1, f2, f3, f4, f5] at hok
    simp [f0, f1, f2, f3, f4, f5]

/-- C17 (amended): in every successful `SetFrequency` (one that returns `nil`, whatever the
frequency), the restore step, the fifth bus call, right after the PRESCALE write, writes the
MODE1 byte `m` exactly as it was read: the byte it writes has the sleep bit clear if and only
if the sleep bit of `m` is clear. -/
theorem C17_restore_writes_mode1_back (pf : Platform) (p : PCA9685) (bus : Bus) (hz : Nat)
    (hok : (p.SetFrequency pf bus hz).2 = Outcome.ok) :
    (p.SetFrequency pf bus hz).1.2.log[bus.log.length + 3]?
      = some (BusOp.write [0xFE, (prescalerOf pf.uintBits hz).toUint 8 pf.floatToInt]) ∧
    (p.SetFrequency pf bus hz).1.2.log[bus.log.length + 4]?
      = some (BusOp.write [0x00, bus.readByte (bus.log.length + 1) % 256]) ∧
    (∀ b, (p.SetFrequency pf bus hz).1.2.log[bus.log.length + 4]?
        = some (BusOp.write [0x00, b]) →
      (b &&& bitMode1Sleep = 0 ↔
        (bus.readByte (bus.log.length + 1) % 256) &&& bitMode1Sleep = 0)) := by
  have h4 : (p.SetFrequency pf bus hz).1.2.log[bus.log.length + 4]?
      = some (BusOp.write [0x00, bus.readByte (bus.log.length + 1) % 256]) := by
    rw [SetFrequency_ok_log pf p bus hz hok,
      List.getElem?_append_right (Nat.le_add_right _ _), Nat.add_sub_cancel_left]
    rfl
  refine ⟨?_, h4, ?_⟩
  · rw [SetFrequency_ok_log pf p bus hz hok,
      List.getElem?_append_right (Nat.le_add_right _ _), Nat.add_sub_cancel_left]
    rfl
  · intro b hb
    rw [h4] at hb
    have hb' : bus.readByte (bus.log.length + 1) % 256 = b := by
      injection hb with hb
      injection hb with hb
      injection hb with _ hb
      injection hb
    rw [hb']

/-- Witness of C17 (amended): the wrapped frequency `2^52 + 50` (64-bit `uint`), MODE1 read as
`0x00` (as `Reset` leaves it), on a bus that never fails. -/
theorem C17_restore_writes_mode1_back_witness :
    (PCA9685.SetFrequency ⟨true, fun _ => 0⟩ { frequency := 0 }
        ⟨[], fun _ => false, fun _ => 0x00⟩ (2 ^ 52 + 50)).1.2.log[0 + 3]?
      = some (BusOp.write [0xFE,
          (prescalerOf (⟨true, fun _ => 0⟩ : Platform).uintBits (2 ^ 52 + 50)).toUint 8
            (⟨true, fun _ => 0⟩ : Platform).floatToInt]) ∧
    (PCA9685.SetFrequency ⟨true, fun _ => 0⟩ { frequency := 0 }
        ⟨[], fun _ => false, fun _ => 0x00⟩ (2 ^ 52 + 50)).1.2.log[0 + 4]?
      = some (BusOp.write [0x00, 0x00 % 256]) ∧
    (∀ b, (PCA9685.SetFrequency ⟨true, fun _ => 0⟩ { frequency := 0 }
        ⟨[], fun _ => false, fun _ => 0x00⟩ (2 ^ 52 + 50)).1.2.log[0 + 4]?
        = some (BusOp.write [0x00, b]) →
      (b &&& bitMode1Sleep = 0 ↔ (0x00 % 256) &&& bitMode1Sleep = 0)) :=
  C17_restore_writes_mode1_back ⟨true, fun _ => 0⟩ { frequency := 0 }
    ⟨[], fun _ => false, fun _ => 0x00⟩ (2 ^ 52 + 50) (by decide!)

/-- C2 (the code at the failing input): on the group `GetChannels(0, 16384)`, with `on = 100`
and `off = 200` both at most 4095 and a bus that never fails, `SetPeriod` does not return `nil`:
the `uint16` buffer length wraps to 1, building the buffer panics, and no bus write is issued;
so the call fails although no bus write failed. -/
theorem C2_large_group_fails_without_write :
    (100 ≤ 4095 ∧ 200 ≤ 4095) ∧
    (PCA9685.GetChannels { frequency := 50 } 0 16384).channelsCount = 16384 ∧
    (∀ i, (⟨[], fun _ => false, fun _ => 0⟩ : Bus).fails i = false) ∧
    ((PCA9685.GetChannels { frequency := 50 } 0 16384).SetPeriod
        ⟨[], fun _ => false, fun _ => 0⟩ 100 200).2 = Outcome.panic ∧
    ((PCA9685.GetChannels { frequency := 50 } 0 16384).SetPeriod
        ⟨[], fun _ => false, fun _ => 0⟩ 100 200).2 ≠ Outcome.ok ∧
    ((PCA9685.GetChannels { frequency := 50 } 0 16384).SetPeriod
        ⟨[], fun _ => false, fun _ => 0⟩ 100 200).1.log = [] :=
  ⟨by decide, rfl, fun _ => rfl, by decide!, by decide!, by decide!⟩

/-- C15 (the code at the failing input): on the group `GetChannels(1, 16384)`, `SetPeriod(7, 9)`
issued twice in a row produces no bus write at all: each call panics while building the buffer
(the `uint16` length wraps to 1) and the log of the bus stays empty. -/
theorem C15_large_group_no_writes :
    (7 ≤ 4095 ∧ 9 ≤ 4095) ∧
    onOffBuffer (PCA9685.GetChannels { frequency := 50 } 1 16384) 7 9 = none ∧
    ((PCA9685.GetChannels { frequency := 50 } 1 16384).SetPeriod
        ⟨[], fun _ => false, fun _ => 0⟩ 7 9).2 = Outcome.panic ∧
    ((PCA9685.GetChannels { frequency := 50 } 1 16384).SetPeriod
        ((PCA9685.GetChannels { frequency := 50 } 1 16384).SetPeriod
          ⟨[], fun _ => false, fun _ => 0⟩ 7 9).1 7 9).2 = Outcome.panic ∧
    ((PCA9685.GetChannels { frequency := 50 } 1 16384).SetPeriod
        ((PCA9685.GetChannels { frequency := 50 } 1 16384).SetPeriod
          ⟨[], fun _ => false, fun _ => 0⟩ 7 9).1 7 9).1.log = [] :=
  ⟨by decide, by decide!, by decide!, by decide!, by decide!⟩

/-- C19 (the code at the failing input): on the group `GetChannels(0, 16384)` of a device at
50 Hz, with shift 500 µs and duration 2000 µs (sum 2500, at most 65535 and within the period of
20000 µs), the fractions are `102 ≤ 512 ≤ 4095` and both range checks pass, yet on a bus that
never fails `SetOnPeriodDurationWithShift` panics while building the buffer and writes
nothing: the call fails although no bus write failed. -/
theorem C19_large_group_fails_without_write :
    (500 + 2000 ≤ 65535 ∧ (500 + 2000) * 50 ≤ 1000000) ∧
    fractionNumber ⟨true, fun _ => 0⟩ (PCA9685.GetChannels { frequency := 50 } 0 16384) 500
      = 102 ∧
    fractionNumber ⟨true, fun _ => 0⟩ (PCA9685.GetChannels { frequency := 50 } 0 16384)
      (500 + 2000) = 512 ∧
    (∀ i, (⟨[], fun _ => false, fun _ => 0⟩ : Bus).fails i = false) ∧
    (Channels.SetOnPeriodDurationWithShift ⟨true, fun _ => 0⟩
        (PCA9685.GetChannels { frequency := 50 } 0 16384)
        ⟨[], fun _ => false, fun _ => 0⟩ 500 2000).2 = Outcome.panic ∧
    (Channels.SetOnPeriodDurationWithShift ⟨true, fun _ => 0⟩
        (PCA9685.GetChannels { frequency := 50 } 0 16384)
        ⟨[], fun _ => false, fun _ => 0⟩ 500 2000).1.log = [] :=
  ⟨by decide, by decide!, by decide!, fun _ => rfl, by decide!, by decide!⟩

end pca9685
